import Mathlib

/-!
Verification of the heartbeats windowed-statistics engine
(`heartbeat-accuracy-power-shared.c`) and of the ODROID Smart Power
polling energy backend (`hb-energy-odroid-smart-power.c`).

The C code is shallowly embedded: `double` becomes `ℚ` (exact rational
arithmetic; the incremental/brute-force window equivalences proved below
are exact, hence hold a fortiori within any relative tolerance),
`int64_t` timestamps become `Int`, and the environment (the realtime
clock `clock_gettime` and the energy backend's `fread`) is passed in as
explicit per-call inputs.  The log ring buffer is modelled as a total
map `Nat → LogRecord` (raw memory), so that out-of-bounds stores made by
the C code are faithfully observable.  The text log sink is modelled by
the list of flushed chunks (`flushes`).  Fields of `heartbeat_t` that no
claim mentions and that no modelled code path reads (the min/max bound
pairs, pid, file handles, the mutex, the energymon handle) are omitted;
scalar fields left uninitialized by the C `malloc` but provably written
before any modelled read (`last_energy`, the `last_*` aggregates) are
initialized to 0, while the malloc'd window arrays and the log buffer
keep arbitrary (parameterized) initial contents.
-/

/-- One row of the heartbeat log (`typedef struct _heartbeat_record_t`),
fields in the text-log column order written by `hb_flush_buffer`. -/
structure LogRecord where
  beat : Int
  tag : Int
  timestamp : Int
  global_rate : ℚ
  window_rate : ℚ
  instant_rate : ℚ
  global_accuracy : ℚ
  window_accuracy : ℚ
  instant_accuracy : ℚ
  global_power : ℚ
  window_power : ℚ
  instant_power : ℚ
  deriving DecidableEq

/-- One sample handed to the sliding-window helper
`hb_window_average_accuracy`: the inter-beat time delta (`time`
argument, int64), the beat's accuracy, and the inter-beat energy delta
(`energy` argument). -/
structure WSample where
  time : Int
  accuracy : ℚ
  energy : ℚ
  deriving DecidableEq

/-- Default sample, used only as the `List.getD` fallback. -/
def dSample : WSample := { time := 0, accuracy := 0, energy := 0 }

/-- The heartbeat engine state: the claim-relevant fields of
`heartbeat_t` and of its shared `HB_global_state_t` (window_size,
counter, buffer_index, read_index, buffer_depth, valid), plus the
observable output of the text sink (`flushes`). -/
structure Heartbeat where
  window_size : Nat
  buffer_depth : Nat
  first_timestamp : Int
  last_timestamp : Int
  last_energy : ℚ
  window : List Int
  accuracy_window : List ℚ
  power_window : List ℚ
  current_index : Nat
  last_average_time : ℚ
  last_average_accuracy : ℚ
  last_window_time : ℚ
  last_window_energy : ℚ
  steady_state : Bool
  counter : Int
  buffer_index : Nat
  read_index : Nat
  global_accuracy : ℚ
  global_power : ℚ
  total_energy : ℚ
  log : Nat → LogRecord
  flushes : List (List LogRecord)
  text_file : Bool
  valid : Bool

/-- State set up by `heartbeat_acc_pow_init` (lines 90-127): both
timestamps -1, all counters/cursors/aggregates 0, `steady_state` and
`valid` false.  The malloc'd window arrays and log buffer start with
arbitrary contents `w0`/`a0`/`p0`/`log0` (uninitialized memory). -/
def hb_init (window_size buffer_depth : Nat) (text_file : Bool)
    (w0 : List Int) (a0 p0 : List ℚ) (log0 : Nat → LogRecord) : Heartbeat :=
  { window_size := window_size
    buffer_depth := buffer_depth
    first_timestamp := -1
    last_timestamp := -1
    last_energy := 0
    window := w0
    accuracy_window := a0
    power_window := p0
    current_index := 0
    last_average_time := 0
    last_average_accuracy := 0
    last_window_time := 0
    last_window_energy := 0
    steady_state := false
    counter := 0
    buffer_index := 0
    read_index := 0
    global_accuracy := 0
    global_power := 0
    total_energy := 0
    log := log0
    flushes := []
    text_file := text_file
    valid := false }

/-- `hb_window_average_accuracy` (lines 213-300).  Returns the updated
state together with the returned `fps` and the values written through
the `accuracy_rate` and `power_rate` out-parameters.  The dead local
`average_power` (its only consumer, line 246, is commented out in the C)
is omitted; the C's narrowing of `fps` to 32-bit float is not modelled
(no claim concerns `fps`). -/
def hb_window_average_accuracy (hb : Heartbeat) (time : Int)
    (accuracy : ℚ) (energy : ℚ) : Heartbeat × ℚ × ℚ × ℚ :=
  if hb.steady_state = false then
    -- warm-up: store the sample, recompute sums over slots 0..current_index
    let window := hb.window.set hb.current_index time
    let accuracy_window := hb.accuracy_window.set hb.current_index accuracy
    let power_window := hb.power_window.set hb.current_index energy
    let sum_time : ℚ :=
      ∑ i ∈ Finset.range (hb.current_index + 1), ((window.getD i 0 : Int) : ℚ)
    let sum_accuracy : ℚ :=
      ∑ i ∈ Finset.range (hb.current_index + 1), accuracy_window.getD i 0
    let sum_power : ℚ :=
      ∑ i ∈ Finset.range (hb.current_index + 1), power_window.getD i 0
    let window_time := sum_time
    let window_energy := sum_power
    let average_time := sum_time / ((hb.current_index : ℚ) + 1)
    let average_accuracy := sum_accuracy / ((hb.current_index : ℚ) + 1)
    let ci := hb.current_index + 1
    let hb1 : Heartbeat :=
      { hb with
        window := window
        accuracy_window := accuracy_window
        power_window := power_window
        last_window_time := window_time
        last_window_energy := window_energy
        last_average_time := average_time
        last_average_accuracy := average_accuracy
        current_index := if ci = hb.window_size then 0 else ci
        steady_state := if ci = hb.window_size then true else hb.steady_state }
    let fps := (1 / average_time) * 1000000000
    (hb1, fps, average_accuracy, window_energy / (window_time / 1000000000))
  else
    -- steady state: subtract the slot about to be overwritten, add the new sample
    let average_time :=
      hb.last_average_time
        - ((hb.window.getD hb.current_index 0 : Int) : ℚ) / (hb.window_size : ℚ)
        + (time : ℚ) / (hb.window_size : ℚ)
    let average_accuracy :=
      hb.last_average_accuracy
        - hb.accuracy_window.getD hb.current_index 0 / (hb.window_size : ℚ)
        + accuracy / (hb.window_size : ℚ)
    let window_time :=
      hb.last_window_time - ((hb.window.getD hb.current_index 0 : Int) : ℚ)
        + (time : ℚ)
    let window_energy :=
      hb.last_window_energy - hb.power_window.getD hb.current_index 0 + energy
    let ci := hb.current_index + 1
    let hb1 : Heartbeat :=
      { hb with
        last_average_time := average_time
        last_average_accuracy := average_accuracy
        last_window_time := window_time
        last_window_energy := window_energy
        window := hb.window.set hb.current_index time
        accuracy_window := hb.accuracy_window.set hb.current_index accuracy
        power_window := hb.power_window.set hb.current_index energy
        current_index := if ci = hb.window_size then 0 else ci }
    let fps := (1 / average_time) * 1000000000
    (hb1, fps, average_accuracy, window_energy / (window_time / 1000000000))

/-- The chunk of records written to the text sink by `hb_flush_buffer`
(lines 155-182): rows `log[0] .. log[nrecords-1]` with
`nrecords = buffer_index` at call time. -/
def hb_flush_chunk (hb : Heartbeat) : List LogRecord :=
  (List.range hb.buffer_index).map hb.log

/-- `heartbeat_acc` (lines 302-406).  `time` is the value captured from
`clock_gettime` and `reading` the raw value returned by `hb->em.fread`
(microjoules; line 317 divides by 1e6).  Returns the updated state and
the returned timestamp. -/
def heartbeat_acc (hb : Heartbeat) (tag : Int) (accuracy : ℚ)
    (time : Int) (reading : ℚ) : Heartbeat × Int :=
  let old_last_time := hb.last_timestamp
  let old_last_energy := hb.last_energy
  let energy := reading / 1000000
  if hb.first_timestamp = -1 then
    -- first heartbeat (lines 322-348)
    ({ hb with
        first_timestamp := time
        last_timestamp := time
        last_energy := energy
        window := hb.window.set 0 0
        accuracy_window := hb.accuracy_window.set 0 accuracy
        power_window := hb.power_window.set 0 0
        log := Function.update hb.log 0
          { beat := hb.counter
            tag := tag
            timestamp := time
            global_rate := 0
            window_rate := 0
            instant_rate := 0
            global_accuracy := accuracy
            window_accuracy := accuracy
            instant_accuracy := accuracy
            global_power := 0
            window_power := 0
            instant_power := 0 }
        counter := hb.counter + 1
        global_accuracy := hb.global_accuracy + accuracy
        total_energy := 0
        buffer_index := hb.buffer_index + 1
        valid := true }, time)
  else
    -- subsequent heartbeats (lines 349-403)
    let index := hb.buffer_index
    let res := hb_window_average_accuracy
      { hb with last_timestamp := time, last_energy := energy }
      (time - old_last_time) accuracy (energy - old_last_energy)
    let hb1 := res.1
    let window_heartrate := res.2.1
    let window_accuracy := res.2.2.1
    let window_power := res.2.2.2
    let global_heartrate :=
      (((hb.counter : ℚ) + 1) / ((time - hb.first_timestamp : Int) : ℚ))
        * 1000000000
    let instant_heartrate :=
      (1 / ((time - old_last_time : Int) : ℚ)) * 1000000000
    let global_accuracy_sum := hb.global_accuracy + accuracy
    let global_accuracy := global_accuracy_sum / ((hb.counter : ℚ) + 1)
    let instant_accuracy := accuracy
    let total_energy := hb.total_energy + (energy - old_last_energy)
    let global_power :=
      (total_energy / ((time - hb.first_timestamp : Int) : ℚ)) * 1000000000
    let instant_power :=
      ((energy - old_last_energy) / ((time - old_last_time : Int) : ℚ))
        * 1000000000
    let hb2 : Heartbeat :=
      { hb1 with
        log := Function.update hb1.log index
          { beat := hb.counter
            tag := tag
            timestamp := time
            global_rate := global_heartrate
            window_rate := window_heartrate
            instant_rate := instant_heartrate
            global_accuracy := global_accuracy
            window_accuracy := window_accuracy
            instant_accuracy := instant_accuracy
            global_power := global_power
            window_power := window_power
            instant_power := instant_power }
        global_accuracy := global_accuracy_sum
        total_energy := total_energy
        buffer_index := hb1.buffer_index + 1
        counter := hb1.counter + 1
        read_index := hb1.read_index + 1 }
    let hb3 : Heartbeat :=
      if hb2.buffer_index % hb2.buffer_depth = 0 then
        { hb2 with
          flushes :=
            if hb2.text_file then hb2.flushes ++ [hb_flush_chunk hb2]
            else hb2.flushes
          buffer_index := 0 }
      else hb2
    let hb4 : Heartbeat :=
      if hb3.read_index % hb3.buffer_depth = 0 then
        { hb3 with read_index := 0 }
      else hb3
    (hb4, time)

/-- The per-call environment of `heartbeat_acc`: caller arguments plus
the clock value and the backend's raw `fread` return. -/
structure HBInput where
  tag : Int
  accuracy : ℚ
  time : Int
  reading : ℚ
  deriving DecidableEq

/-- Default input, used only as the `List.getD` fallback. -/
def dInput : HBInput := { tag := 0, accuracy := 0, time := 0, reading := 0 }

/-- Run a sequence of `heartbeat_acc` calls. -/
def hb_run (hb : Heartbeat) (inputs : List HBInput) : Heartbeat :=
  inputs.foldl
    (fun s inp => (heartbeat_acc s inp.tag inp.accuracy inp.time inp.reading).1)
    hb

/-- Run a sequence of calls to the sliding-window helper, keeping the
state. -/
def winFold (hb : Heartbeat) (s : List WSample) : Heartbeat :=
  s.foldl (fun st x => (hb_window_average_accuracy st x.time x.accuracy x.energy).1) hb

/-- The samples the engine feeds to the sliding-window helper when
running `inputs`: one per beat after the first, holding that beat's
time delta, accuracy, and energy delta (line 355-360). -/
def hbDeltas (inputs : List HBInput) : List WSample :=
  (List.range (inputs.length - 1)).map fun j =>
    { time := (inputs.getD (j+1) dInput).time - (inputs.getD j dInput).time
      accuracy := (inputs.getD (j+1) dInput).accuracy
      energy := (inputs.getD (j+1) dInput).reading / 1000000
                  - (inputs.getD j dInput).reading / 1000000 }

/-- Brute-force recomputation of the windowed time average over a
sample sequence: the sum of the trailing `min n window_size` time
deltas divided by their count. -/
def bruteForceTimeAvg (s : List WSample) (window_size : Nat) : ℚ :=
  (∑ j ∈ Finset.Ico (s.length - min s.length window_size) s.length,
      (((s.getD j dSample).time : Int) : ℚ)) / ((min s.length window_size : Nat) : ℚ)

/-- Brute-force recomputation of the windowed accuracy average over a
sample sequence: the sum of the trailing `min n window_size` accuracy
values divided by their count. -/
def bruteForceAccuracyAvg (s : List WSample) (window_size : Nat) : ℚ :=
  (∑ j ∈ Finset.Ico (s.length - min s.length window_size) s.length,
      (s.getD j dSample).accuracy) / ((min s.length window_size : Nat) : ℚ)

/-- Synthetic-clock input sequence for the global-rate property: `n`
beats with timestamps `t0, t0+g, t0+2g, ...`, constant tag, accuracy
and energy reading. -/
def constGapInputs (n : Nat) (t0 g : Int) (tag : Int) (accuracy : ℚ)
    (reading : ℚ) : List HBInput :=
  (List.range n).map fun j : Nat =>
    { tag := tag, accuracy := accuracy, time := t0 + (j : Int) * g
      reading := reading }

/-! ### The ODROID Smart Power polling backend -/

/-- Shared state of the polling variant of the ODROID Smart Power
backend (`hb-energy-odroid-smart-power.c`, statics at lines 35-54 under
`HB_ENERGY_ODROID_SMART_POWER_USE_POLLING`).  `device` models whether
`hid_open` succeeded (`device != NULL`). -/
structure OspState where
  device : Bool
  osp_start_time : Int
  osp_total_energy : ℚ
  osp_hb_pwr_avg : ℚ
  osp_hb_pwr_avg_last : ℚ
  osp_hb_pwr_avg_count : Nat
  deriving DecidableEq

/-- Polling-backend state after a successful `hb_energy_init_osp`
(lines 197-219): all averages, counts and the energy total zeroed. -/
def osp_init (device : Bool) (start_time : Int) : OspState :=
  { device := device
    osp_start_time := start_time
    osp_total_energy := 0
    osp_hb_pwr_avg := 0
    osp_hb_pwr_avg_last := 0
    osp_hb_pwr_avg_count := 0 }

/-- One successful sample taken by the polling thread `osp_poll_device`
(lines 141-145): fold the sampled wattage into the running average. -/
def osp_poll_sample (s : OspState) (watts : ℚ) : OspState :=
  { s with
    osp_hb_pwr_avg :=
      (watts + (s.osp_hb_pwr_avg_count : ℚ) * s.osp_hb_pwr_avg)
        / ((s.osp_hb_pwr_avg_count : ℚ) + 1)
    osp_hb_pwr_avg_count := s.osp_hb_pwr_avg_count + 1 }

/-- Modelled from the spec: the `diff_sec` helper used at line 239 is
declared in a heartbeat utility header that is not part of the provided
sources; per spec section 4.3 the energy accumulation multiplies the
carried power average by the interval length `(curr_ts - last_ts)` in
seconds, the timestamps being nanoseconds. -/
def diff_sec (last_time curr_time : Int) : ℚ :=
  ((curr_time - last_time : Int) : ℚ) / 1000000000

/-- `hb_energy_read_total_osp`, polling variant (lines 224-261):
returns -1 if the device is not initialized; otherwise carries forward
the last non-zero power average when the current running average is
zero, accumulates energy for the elapsed interval, resets the running
average, and returns the accumulated total. -/
def hb_energy_read_total_osp (s : OspState) (last_hb_time curr_hb_time : Int) :
    OspState × ℚ :=
  if s.device = false then
    (s, -1)
  else
    let last_hb_time' :=
      if last_hb_time < 0 then s.osp_start_time else last_hb_time
    let avg_last :=
      if 0 < s.osp_hb_pwr_avg then s.osp_hb_pwr_avg else s.osp_hb_pwr_avg_last
    let total :=
      s.osp_total_energy + avg_last * diff_sec last_hb_time' curr_hb_time
    ({ s with
        osp_hb_pwr_avg_last := avg_last
        osp_total_energy := total
        osp_hb_pwr_avg := 0
        osp_hb_pwr_avg_count := 0 }, total)

/-- An event acting on the polling backend's shared state: either a
poll-thread sample or a consumer `read_delta` call. -/
inductive OspOp where
  | sample (watts : ℚ)
  | read (last_hb_time curr_hb_time : Int)
  deriving DecidableEq

/-- Apply one event to the polling backend state. -/
def osp_step (s : OspState) (op : OspOp) : OspState :=
  match op with
  | OspOp.sample watts => osp_poll_sample s watts
  | OspOp.read l c => (hb_energy_read_total_osp s l c).1

/-- Run a sequence of polling-backend events. -/
def osp_run (s : OspState) (ops : List OspOp) : OspState :=
  ops.foldl osp_step s

/-! ### List and arithmetic helper lemmas -/

theorem getD_set_self {α : Type} (l : List α) (i : Nat) (a d : α)
    (h : i < l.length) : (l.set i a).getD i d = a := by
  rw [List.getD_eq_getElem _ _ (by simpa using h)]
  exact List.getElem_set_self _

theorem getD_set_ne {α : Type} (l : List α) {i j : Nat} (h : i ≠ j)
    (a d : α) : (l.set i a).getD j d = l.getD j d := by
  by_cases hj : j < l.length
  · rw [List.getD_eq_getElem _ _ (by simpa using hj),
      List.getD_eq_getElem _ _ hj]
    exact List.getElem_set_ne h _
  · rw [List.getD_eq_default _ _ (by simpa using Nat.le_of_not_lt hj),
      List.getD_eq_default _ _ (Nat.le_of_not_lt hj)]

theorem getD_concat_last {α : Type} (l : List α) (x d : α) :
    (l ++ [x]).getD l.length d = x := by
  rw [List.getD_append_right _ _ _ _ (le_refl _), Nat.sub_self]
  rfl

/-- Incrementing an in-range cursor and resetting it when it hits the
bound is the successor modulo the bound. -/
theorem idx_step (n W : Nat) (hW : 1 ≤ W) :
    (if n % W + 1 = W then 0 else n % W + 1) = (n + 1) % W := by
  by_cases h : n % W + 1 = W
  · rw [if_pos h, ← Nat.mod_add_mod, h, Nat.mod_self]
  · rw [if_neg h]
    have hlt : n % W + 1 < W :=
      lt_of_le_of_ne (Nat.succ_le_of_lt (Nat.mod_lt n hW)) h
    rw [← Nat.mod_add_mod, Nat.mod_eq_of_lt hlt]

/-- Incrementing an in-range cursor and resetting it when the increment
is divisible by the bound is the successor modulo the bound. -/
theorem mod_step (n B : Nat) (hB : 1 ≤ B) :
    (if (n % B + 1) % B = 0 then 0 else n % B + 1) = (n + 1) % B := by
  rw [Nat.mod_add_mod]
  by_cases h : (n + 1) % B = 0
  · rw [if_pos h, h]
  · rw [if_neg h]
    by_cases h2 : n % B + 1 = B
    · exfalso; apply h; rw [← Nat.mod_add_mod, h2, Nat.mod_self]
    · have hlt : n % B + 1 < B :=
        lt_of_le_of_ne (Nat.succ_le_of_lt (Nat.mod_lt n hB)) h2
      rw [← Nat.mod_add_mod, Nat.mod_eq_of_lt hlt]

/-- After `n` samples, ring slot `i` holds the sample with the largest
index `< n` congruent to `i` modulo the window size: index
`posOf n W i`. -/
def posOf (n W i : Nat) : Nat := n - 1 - ((n - 1 - i) % W)

theorem posOf_small (n W i : Nat) (h : n ≤ W) (hi : i < n) :
    posOf n W i = i := by
  unfold posOf
  rw [Nat.mod_eq_of_lt (show n - 1 - i < W by omega)]
  omega

theorem posOf_succ_eq (n W : Nat) :
    posOf (n + 1) W (n % W) = n := by
  unfold posOf
  have hd := Nat.div_add_mod n W
  have h1 : n + 1 - 1 - n % W = W * (n / W) := by omega
  rw [h1, Nat.mul_mod_right]
  omega

theorem posOf_self (n W : Nat) (hW : 1 ≤ W) (hle : W ≤ n) :
    posOf n W (n % W) = n - W := by
  unfold posOf
  have hq : 1 ≤ n / W := (Nat.one_le_div_iff hW).mpr hle
  have hd := Nat.div_add_mod n W
  obtain ⟨r, hr⟩ : ∃ r, n / W = r + 1 := ⟨n / W - 1, by omega⟩
  rw [hr] at hd
  have h1 : n - 1 - n % W = W * r + (W - 1) := by
    have hx : W * (r + 1) = W * r + W := by ring
    omega
  rw [h1, Nat.mul_add_mod, Nat.mod_eq_of_lt (show W - 1 < W by omega)]
  have hmod := Nat.mod_lt n hW
  omega

theorem posOf_succ_ne (n W i : Nat) (hW : 1 ≤ W) (hiW : i < W)
    (hin : i < n) (hne : i ≠ n % W) : posOf (n + 1) W i = posOf n W i := by
  unfold posOf
  have hne0 : (n - i) % W ≠ 0 := by
    intro h0
    have hd := Nat.div_add_mod (n - i) W
    apply hne
    have hn' : n = W * ((n - i) / W) + i := by omega
    rw [hn', Nat.mul_add_mod, Nat.mod_eq_of_lt hiW]
  have e1 : n + 1 - 1 - i = n - i := by omega
  have e2 : n + 1 - 1 = n := by omega
  rw [e1, e2]
  have hsplit : n - i = n - 1 - i + 1 := by omega
  rw [hsplit]
  by_cases hcase : (n - 1 - i) % W + 1 = W
  · exfalso
    apply hne0
    rw [hsplit, ← Nat.mod_add_mod, hcase, Nat.mod_self]
  · have hmm : (n - 1 - i + 1) % W = (n - 1 - i) % W + 1 := by
      rw [← Nat.mod_add_mod]
      exact Nat.mod_eq_of_lt
        (lt_of_le_of_ne (Nat.succ_le_of_lt (Nat.mod_lt _ hW)) hcase)
    rw [hmm]
    have := Nat.mod_le (n - 1 - i) W
    omega

/-! ### Branch equations for the sliding-window helper -/

/-- Warm-up branch of `hb_window_average_accuracy`, as one state
equation. -/
theorem warm_fields (hb : Heartbeat) (h : hb.steady_state = false)
    (t : Int) (a e : ℚ) :
    (hb_window_average_accuracy hb t a e).1 =
      { hb with
        window := hb.window.set hb.current_index t
        accuracy_window := hb.accuracy_window.set hb.current_index a
        power_window := hb.power_window.set hb.current_index e
        last_window_time := ∑ i ∈ Finset.range (hb.current_index + 1),
          (((hb.window.set hb.current_index t).getD i 0 : Int) : ℚ)
        last_window_energy := ∑ i ∈ Finset.range (hb.current_index + 1),
          (hb.power_window.set hb.current_index e).getD i 0
        last_average_time := (∑ i ∈ Finset.range (hb.current_index + 1),
            (((hb.window.set hb.current_index t).getD i 0 : Int) : ℚ))
          / ((hb.current_index : ℚ) + 1)
        last_average_accuracy := (∑ i ∈ Finset.range (hb.current_index + 1),
            (hb.accuracy_window.set hb.current_index a).getD i 0)
          / ((hb.current_index : ℚ) + 1)
        current_index :=
          if hb.current_index + 1 = hb.window_size then 0
          else hb.current_index + 1
        steady_state :=
          if hb.current_index + 1 = hb.window_size then true
          else hb.steady_state } := by
  unfold hb_window_average_accuracy
  rw [if_pos h]

/-- Steady-state branch of `hb_window_average_accuracy`, as one state
equation. -/
theorem steady_fields (hb : Heartbeat) (h : hb.steady_state = true)
    (t : Int) (a e : ℚ) :
    (hb_window_average_accuracy hb t a e).1 =
      { hb with
        last_average_time := hb.last_average_time
          - ((hb.window.getD hb.current_index 0 : Int) : ℚ)
              / (hb.window_size : ℚ)
          + (t : ℚ) / (hb.window_size : ℚ)
        last_average_accuracy := hb.last_average_accuracy
          - hb.accuracy_window.getD hb.current_index 0 / (hb.window_size : ℚ)
          + a / (hb.window_size : ℚ)
        last_window_time := hb.last_window_time
          - ((hb.window.getD hb.current_index 0 : Int) : ℚ) + (t : ℚ)
        last_window_energy := hb.last_window_energy
          - hb.power_window.getD hb.current_index 0 + e
        window := hb.window.set hb.current_index t
        accuracy_window := hb.accuracy_window.set hb.current_index a
        power_window := hb.power_window.set hb.current_index e
        current_index :=
          if hb.current_index + 1 = hb.window_size then 0
          else hb.current_index + 1 } := by
  unfold hb_window_average_accuracy
  rw [if_neg (by simp [h])]

/-! ### The sliding-window invariant -/

/-- Invariant tying the helper's incremental state after processing the
sample sequence `s` to a brute-force view of `s`: cursor position and
phase flag, ring contents (slot `i` holds the most recent sample whose
index is congruent to `i` modulo the window size), and the
incrementally maintained time and accuracy averages, which equal the
brute-force averages over the trailing `min |s| W` samples. -/
def WinInv (W : Nat) (s : List WSample) (st : Heartbeat) : Prop :=
  st.window_size = W ∧
  st.window.length = W ∧
  st.accuracy_window.length = W ∧
  st.power_window.length = W ∧
  st.current_index = s.length % W ∧
  st.steady_state = decide (W ≤ s.length) ∧
  (∀ i : Nat, i < W → i < s.length →
    st.window.getD i 0 = (s.getD (posOf s.length W i) dSample).time ∧
    st.accuracy_window.getD i 0 =
      (s.getD (posOf s.length W i) dSample).accuracy ∧
    st.power_window.getD i 0 = (s.getD (posOf s.length W i) dSample).energy) ∧
  (1 ≤ s.length →
    st.last_average_time =
      (∑ j ∈ Finset.Ico (s.length - min s.length W) s.length,
        ((s.getD j dSample).time : ℚ)) / ((min s.length W : Nat) : ℚ) ∧
    st.last_average_accuracy =
      (∑ j ∈ Finset.Ico (s.length - min s.length W) s.length,
        (s.getD j dSample).accuracy) / ((min s.length W : Nat) : ℚ))

theorem posOf_lt (n W i : Nat) (h : 1 ≤ n) : posOf n W i < n := by
  unfold posOf; omega

/-- Any state with a zeroed cursor, a false phase flag, and correctly
sized windows satisfies the invariant for the empty sample sequence. -/
theorem winInv_nil (W : Nat) (hW : 1 ≤ W) (st : Heartbeat)
    (h1 : st.window_size = W) (h2 : st.window.length = W)
    (h3 : st.accuracy_window.length = W) (h4 : st.power_window.length = W)
    (h5 : st.current_index = 0) (h6 : st.steady_state = false) :
    WinInv W [] st := by
  refine ⟨h1, h2, h3, h4, ?_, ?_, ?_, ?_⟩
  · simpa using h5
  · have : ¬ W ≤ 0 := by omega
    simp [this, h6]
  · intro i _ hi
    simp at hi
  · intro h
    simp at h

/-- One helper call preserves the invariant, extending the sample
sequence. -/
theorem winInv_step (W : Nat) (hW : 1 ≤ W) (s : List WSample)
    (st : Heartbeat) (hinv : WinInv W s st) (x : WSample) :
    WinInv W (s ++ [x])
      (hb_window_average_accuracy st x.time x.accuracy x.energy).1 := by
  obtain ⟨hws, hlw, hla, hlp, hci, hss, hpt, hsum⟩ := hinv
  have hlen : (s ++ [x]).length = s.length + 1 := by simp
  by_cases hsteady : W ≤ s.length
  · -- steady state
    have hssT : st.steady_state = true := by rw [hss]; simp [hsteady]
    rw [steady_fields st hssT]
    have hcw : s.length % W < W := Nat.mod_lt _ hW
    have hn1 : 1 ≤ s.length := le_trans hW hsteady
    obtain ⟨hlat, hlaa⟩ := hsum hn1
    have hmin : min s.length W = W := min_eq_right hsteady
    have hmin1 : min (s.length + 1) W = W :=
      min_eq_right (le_trans hsteady (Nat.le_succ _))
    obtain ⟨hptw, hpta, hptp⟩ :=
      hpt (s.length % W) hcw (lt_of_lt_of_le hcw hsteady)
    rw [posOf_self s.length W hW hsteady] at hptw hpta hptp
    unfold WinInv
    refine ⟨hws, ?_, ?_, ?_, ?_, ?_, ?_, ?_⟩
    · simpa [List.length_set] using hlw
    · simpa [List.length_set] using hla
    · simpa [List.length_set] using hlp
    · show (if st.current_index + 1 = st.window_size then 0
          else st.current_index + 1) = (s ++ [x]).length % W
      rw [hci, hws, hlen]
      exact idx_step s.length W hW
    · show st.steady_state = decide (W ≤ (s ++ [x]).length)
      rw [hss, hlen]
      simp [hsteady, le_trans hsteady (Nat.le_succ _)]
    · intro i hiW hin
      rw [hlen] at hin
      have hin' : i < s.length := lt_of_lt_of_le hiW hsteady
      by_cases hic : i = s.length % W
      · subst hic
        rw [hlen, posOf_succ_eq s.length W]
        constructor
        · show (st.window.set st.current_index x.time).getD (s.length % W) 0
            = ((s ++ [x]).getD s.length dSample).time
          rw [hci, getD_set_self _ _ _ _ (by rw [hlw]; exact hcw),
            getD_concat_last]
        constructor
        · show (st.accuracy_window.set st.current_index
              x.accuracy).getD (s.length % W) 0
            = ((s ++ [x]).getD s.length dSample).accuracy
          rw [hci, getD_set_self _ _ _ _ (by rw [hla]; exact hcw),
            getD_concat_last]
        · show (st.power_window.set st.current_index
              x.energy).getD (s.length % W) 0
            = ((s ++ [x]).getD s.length dSample).energy
          rw [hci, getD_set_self _ _ _ _ (by rw [hlp]; exact hcw),
            getD_concat_last]
      · have hne : st.current_index ≠ i := by rw [hci]; exact Ne.symm hic
        have hpos :
            posOf (s ++ [x]).length W i = posOf s.length W i := by
          rw [hlen]
          exact posOf_succ_ne s.length W i hW hiW hin' hic
        have hposlt : posOf s.length W i < s.length := posOf_lt _ _ _ hn1
        obtain ⟨hw1, ha1, hp1⟩ := hpt i hiW hin'
        rw [hpos, List.getD_append _ _ _ _ hposlt]
        exact ⟨by rw [getD_set_ne _ hne]; exact hw1,
          by rw [getD_set_ne _ hne]; exact ha1,
          by rw [getD_set_ne _ hne]; exact hp1⟩
    · intro _
      rw [hlen, hmin1]
      have h1 : s.length + 1 - W = s.length - W + 1 := by omega
      constructor
      · show st.last_average_time
            - ((st.window.getD st.current_index 0 : Int) : ℚ)
                / (st.window_size : ℚ)
            + (x.time : ℚ) / (st.window_size : ℚ)
          = (∑ j ∈ Finset.Ico (s.length + 1 - W) (s.length + 1),
              (((s ++ [x]).getD j dSample).time : ℚ)) / ((W : Nat) : ℚ)
        rw [hci, hws, hptw, hlat, hmin]
        rw [div_sub_div_same, div_add_div_same]
        congr 1
        rw [h1, Finset.sum_Ico_succ_top (by omega), getD_concat_last]
        have hcongr :
            (∑ j ∈ Finset.Ico (s.length - W + 1) s.length,
              (((s ++ [x]).getD j dSample).time : ℚ))
            = ∑ j ∈ Finset.Ico (s.length - W + 1) s.length,
              ((s.getD j dSample).time : ℚ) :=
          Finset.sum_congr rfl (fun j hj => by
            rw [List.getD_append _ _ _ _ (Finset.mem_Ico.mp hj).2])
        rw [hcongr,
          Finset.sum_eq_sum_Ico_succ_bot (show s.length - W < s.length by omega)]
        ring
      · show st.last_average_accuracy
            - st.accuracy_window.getD st.current_index 0
                / (st.window_size : ℚ)
            + x.accuracy / (st.window_size : ℚ)
          = (∑ j ∈ Finset.Ico (s.length + 1 - W) (s.length + 1),
              ((s ++ [x]).getD j dSample).accuracy) / ((W : Nat) : ℚ)
        rw [hci, hws, hpta, hlaa, hmin]
        rw [div_sub_div_same, div_add_div_same]
        congr 1
        rw [h1, Finset.sum_Ico_succ_top (by omega), getD_concat_last]
        have hcongr :
            (∑ j ∈ Finset.Ico (s.length - W + 1) s.length,
              ((s ++ [x]).getD j dSample).accuracy)
            = ∑ j ∈ Finset.Ico (s.length - W + 1) s.length,
              (s.getD j dSample).accuracy :=
          Finset.sum_congr rfl (fun j hj => by
            rw [List.getD_append _ _ _ _ (Finset.mem_Ico.mp hj).2])
        rw [hcongr,
          Finset.sum_eq_sum_Ico_succ_bot (show s.length - W < s.length by omega)]
        ring
  · -- warm-up
    have hssF : st.steady_state = false := by rw [hss]; simp [hsteady]
    rw [warm_fields st hssF]
    have hnW : s.length < W := Nat.lt_of_not_le hsteady
    have hcn : st.current_index = s.length := by
      rw [hci]; exact Nat.mod_eq_of_lt hnW
    have hpos : ∀ i : Nat, i < s.length + 1 →
        posOf (s.length + 1) W i = i :=
      fun i hi => posOf_small (s.length + 1) W i hnW hi
    have hgets : ∀ i : Nat, i < s.length + 1 →
        (s ++ [x]).getD i dSample =
          (if i = s.length then x else s.getD i dSample) := by
      intro i hi
      by_cases hieq : i = s.length
      · subst hieq
        rw [getD_concat_last, if_pos rfl]
      · rw [if_neg hieq, List.getD_append _ _ _ _ (by omega)]
    have hsetw : ∀ i : Nat, i < s.length + 1 →
        (st.window.set st.current_index x.time).getD i 0 =
          (if i = s.length then x else s.getD i dSample).time := by
      intro i hi
      by_cases hieq : i = s.length
      · subst hieq
        rw [if_pos rfl, hcn,
          getD_set_self _ _ _ _ (by rw [hlw]; exact hnW)]
      · rw [if_neg hieq, getD_set_ne _ (by rw [hcn]; exact Ne.symm hieq)]
        exact (hpt i (by omega) (by omega)).1.trans
          (by rw [posOf_small s.length W i (by omega) (by omega)])
    have hseta : ∀ i : Nat, i < s.length + 1 →
        (st.accuracy_window.set st.current_index x.accuracy).getD i 0 =
          (if i = s.length then x else s.getD i dSample).accuracy := by
      intro i hi
      by_cases hieq : i = s.length
      · subst hieq
        rw [if_pos rfl, hcn,
          getD_set_self _ _ _ _ (by rw [hla]; exact hnW)]
      · rw [if_neg hieq, getD_set_ne _ (by rw [hcn]; exact Ne.symm hieq)]
        exact (hpt i (by omega) (by omega)).2.1.trans
          (by rw [posOf_small s.length W i (by omega) (by omega)])
    have hsetp : ∀ i : Nat, i < s.length + 1 →
        (st.power_window.set st.current_index x.energy).getD i 0 =
          (if i = s.length then x else s.getD i dSample).energy := by
      intro i hi
      by_cases hieq : i = s.length
      · subst hieq
        rw [if_pos rfl, hcn,
          getD_set_self _ _ _ _ (by rw [hlp]; exact hnW)]
      · rw [if_neg hieq, getD_set_ne _ (by rw [hcn]; exact Ne.symm hieq)]
        exact (hpt i (by omega) (by omega)).2.2.trans
          (by rw [posOf_small s.length W i (by omega) (by omega)])
    unfold WinInv
    refine ⟨hws, ?_, ?_, ?_, ?_, ?_, ?_, ?_⟩
    · simpa [List.length_set] using hlw
    · simpa [List.length_set] using hla
    · simpa [List.length_set] using hlp
    · show (if st.current_index + 1 = st.window_size then 0
          else st.current_index + 1) = (s ++ [x]).length % W
      rw [hcn, hws, hlen]
      by_cases hfull : s.length + 1 = W
      · rw [if_pos hfull, hfull, Nat.mod_self]
      · rw [if_neg hfull, Nat.mod_eq_of_lt (by omega)]
    · show (if st.current_index + 1 = st.window_size then true
          else st.steady_state) = decide (W ≤ (s ++ [x]).length)
      rw [hcn, hws, hlen, hssF]
      by_cases hfull : s.length + 1 = W
      · rw [if_pos hfull]
        simp [hfull.symm.le]
      · rw [if_neg hfull]
        have : ¬ W ≤ s.length + 1 := by omega
        simp [this]
    · intro i hiW hin
      rw [hlen] at hin
      rw [hlen, hpos i hin]
      rw [hgets i hin, hsetw i hin, hseta i hin, hsetp i hin]
      exact ⟨rfl, rfl, rfl⟩
    · intro _
      rw [hlen]
      have hmin1 : min (s.length + 1) W = s.length + 1 :=
        min_eq_left (by omega)
      rw [hmin1, Nat.sub_self]
      have hsetw2 := hsetw
      have hseta2 := hseta
      rw [hcn] at hsetw2 hseta2
      constructor
      · show (∑ i ∈ Finset.range (st.current_index + 1),
            (((st.window.set st.current_index x.time).getD i 0 : Int) : ℚ))
              / ((st.current_index : ℚ) + 1)
          = (∑ j ∈ Finset.Ico 0 (s.length + 1),
              (((s ++ [x]).getD j dSample).time : ℚ)) / ((s.length + 1 : Nat) : ℚ)
        rw [hcn, Finset.range_eq_Ico]
        congr 1
        · refine Finset.sum_congr rfl (fun j hj => ?_)
          have hj' : j < s.length + 1 := (Finset.mem_Ico.mp hj).2
          rw [hsetw2 j hj', hgets j hj']
        · push_cast
          ring
      · show (∑ i ∈ Finset.range (st.current_index + 1),
            (st.accuracy_window.set st.current_index x.accuracy).getD i 0)
              / ((st.current_index : ℚ) + 1)
          = (∑ j ∈ Finset.Ico 0 (s.length + 1),
              ((s ++ [x]).getD j dSample).accuracy) / ((s.length + 1 : Nat) : ℚ)
        rw [hcn, Finset.range_eq_Ico]
        congr 1
        · refine Finset.sum_congr rfl (fun j hj => ?_)
          have hj' : j < s.length + 1 := (Finset.mem_Ico.mp hj).2
          rw [hseta2 j hj', hgets j hj']
        · push_cast
          ring

/-- The invariant holds after folding any sample sequence from a
fresh-window state. -/
theorem winInv_winFold (W : Nat) (hW : 1 ≤ W) (hb0 : Heartbeat)
    (h0 : WinInv W [] hb0) (s : List WSample) :
    WinInv W s (winFold hb0 s) := by
  induction s using List.reverseRecOn with
  | nil => exact h0
  | append_singleton l x ih =>
    have : winFold hb0 (l ++ [x]) =
        (hb_window_average_accuracy (winFold hb0 l)
          x.time x.accuracy x.energy).1 := by
      simp [winFold, List.foldl_append]
    rw [this]
    exact winInv_step W hW l _ ih x

/-! ### Frame and branch equations for the engine step -/

/-- The sliding-window helper does not touch any non-window field. -/
theorem hb_window_frame (hb : Heartbeat) (t : Int) (a e : ℚ) :
    (hb_window_average_accuracy hb t a e).1.first_timestamp =
        hb.first_timestamp ∧
    (hb_window_average_accuracy hb t a e).1.last_timestamp =
        hb.last_timestamp ∧
    (hb_window_average_accuracy hb t a e).1.last_energy = hb.last_energy ∧
    (hb_window_average_accuracy hb t a e).1.counter = hb.counter ∧
    (hb_window_average_accuracy hb t a e).1.buffer_index = hb.buffer_index ∧
    (hb_window_average_accuracy hb t a e).1.read_index = hb.read_index ∧
    (hb_window_average_accuracy hb t a e).1.buffer_depth = hb.buffer_depth ∧
    (hb_window_average_accuracy hb t a e).1.window_size = hb.window_size ∧
    (hb_window_average_accuracy hb t a e).1.log = hb.log ∧
    (hb_window_average_accuracy hb t a e).1.flushes = hb.flushes ∧
    (hb_window_average_accuracy hb t a e).1.text_file = hb.text_file ∧
    (hb_window_average_accuracy hb t a e).1.global_accuracy =
        hb.global_accuracy ∧
    (hb_window_average_accuracy hb t a e).1.total_energy = hb.total_energy ∧
    (hb_window_average_accuracy hb t a e).1.valid = hb.valid := by
  unfold hb_window_average_accuracy
  split <;>
    exact ⟨rfl, rfl, rfl, rfl, rfl, rfl, rfl, rfl, rfl, rfl, rfl, rfl, rfl,
      rfl⟩

/-- The helper's `accuracy_rate` out-parameter equals the stored
`last_average_accuracy` of its result state. -/
theorem hb_window_accuracy_out (hb : Heartbeat) (t : Int) (a e : ℚ) :
    (hb_window_average_accuracy hb t a e).2.2.1 =
      (hb_window_average_accuracy hb t a e).1.last_average_accuracy := by
  unfold hb_window_average_accuracy
  split <;> rfl

/-- `heartbeat_acc` always returns the captured timestamp. -/
theorem heartbeat_acc_time (hb : Heartbeat) (tag : Int) (a : ℚ) (t : Int)
    (r : ℚ) : (heartbeat_acc hb tag a t r).2 = t := by
  unfold heartbeat_acc
  split
  · rfl
  · rfl

/-- First-call branch of `heartbeat_acc`, as one state equation. -/
theorem heartbeat_acc_first (hb : Heartbeat) (h : hb.first_timestamp = -1)
    (tag : Int) (a : ℚ) (t : Int) (r : ℚ) :
    heartbeat_acc hb tag a t r =
      ({ hb with
          first_timestamp := t
          last_timestamp := t
          last_energy := r / 1000000
          window := hb.window.set 0 0
          accuracy_window := hb.accuracy_window.set 0 a
          power_window := hb.power_window.set 0 0
          log := Function.update hb.log 0
            { beat := hb.counter
              tag := tag
              timestamp := t
              global_rate := 0
              window_rate := 0
              instant_rate := 0
              global_accuracy := a
              window_accuracy := a
              instant_accuracy := a
              global_power := 0
              window_power := 0
              instant_power := 0 }
          counter := hb.counter + 1
          global_accuracy := hb.global_accuracy + a
          total_energy := 0
          buffer_index := hb.buffer_index + 1
          valid := true }, t) := by
  unfold heartbeat_acc
  rw [if_pos h]

/-- Non-first branch: scalar bookkeeping fields of the result. -/
theorem acc_else_scalars (hb : Heartbeat) (h : ¬ hb.first_timestamp = -1)
    (tag : Int) (a : ℚ) (t : Int) (r : ℚ) :
    (heartbeat_acc hb tag a t r).1.counter = hb.counter + 1 ∧
    (heartbeat_acc hb tag a t r).1.first_timestamp = hb.first_timestamp ∧
    (heartbeat_acc hb tag a t r).1.last_timestamp = t ∧
    (heartbeat_acc hb tag a t r).1.last_energy = r / 1000000 ∧
    (heartbeat_acc hb tag a t r).1.buffer_depth = hb.buffer_depth ∧
    (heartbeat_acc hb tag a t r).1.window_size = hb.window_size ∧
    (heartbeat_acc hb tag a t r).1.text_file = hb.text_file ∧
    (heartbeat_acc hb tag a t r).1.global_accuracy =
        hb.global_accuracy + a ∧
    (heartbeat_acc hb tag a t r).1.total_energy =
        hb.total_energy + (r / 1000000 - hb.last_energy) := by
  obtain ⟨f1, f2, f3, f4, f5, f6, f7, f8, f9, f10, f11, f12, f13, f14⟩ :=
    hb_window_frame { hb with last_timestamp := t, last_energy := r / 1000000 }
      (t - hb.last_timestamp) a (r / 1000000 - hb.last_energy)
  by_cases c1 : (hb.buffer_index + 1) % hb.buffer_depth = 0 <;>
  by_cases c2 : (hb.read_index + 1) % hb.buffer_depth = 0 <;>
    simp [heartbeat_acc, h, f1, f2, f3, f4, f5, f6, f7, f8, f9, f10, f11,
      f12, f13, f14, c1, c2]

/-- Non-first branch: the write cursor advances by one, wrapping to zero
when the incremented value is a multiple of `buffer_depth`. -/
theorem acc_else_buffer_index (hb : Heartbeat)
    (h : ¬ hb.first_timestamp = -1) (tag : Int) (a : ℚ) (t : Int) (r : ℚ) :
    (heartbeat_acc hb tag a t r).1.buffer_index =
      if (hb.buffer_index + 1) % hb.buffer_depth = 0 then 0
      else hb.buffer_index + 1 := by
  obtain ⟨f1, f2, f3, f4, f5, f6, f7, f8, f9, f10, f11, f12, f13, f14⟩ :=
    hb_window_frame { hb with last_timestamp := t, last_energy := r / 1000000 }
      (t - hb.last_timestamp) a (r / 1000000 - hb.last_energy)
  by_cases c1 : (hb.buffer_index + 1) % hb.buffer_depth = 0 <;>
  by_cases c2 : (hb.read_index + 1) % hb.buffer_depth = 0 <;>
    simp [heartbeat_acc, h, f1, f2, f3, f4, f5, f6, f7, f8, f9, f10, f11,
      f12, f13, f14, c1, c2]

/-- Non-first branch: the read cursor advances by one, wrapping to zero
when the incremented value is a multiple of `buffer_depth`. -/
theorem acc_else_read_index (hb : Heartbeat)
    (h : ¬ hb.first_timestamp = -1) (tag : Int) (a : ℚ) (t : Int) (r : ℚ) :
    (heartbeat_acc hb tag a t r).1.read_index =
      if (hb.read_index + 1) % hb.buffer_depth = 0 then 0
      else hb.read_index + 1 := by
  obtain ⟨f1, f2, f3, f4, f5, f6, f7, f8, f9, f10, f11, f12, f13, f14⟩ :=
    hb_window_frame { hb with last_timestamp := t, last_energy := r / 1000000 }
      (t - hb.last_timestamp) a (r / 1000000 - hb.last_energy)
  by_cases c1 : (hb.buffer_index + 1) % hb.buffer_depth = 0 <;>
  by_cases c2 : (hb.read_index + 1) % hb.buffer_depth = 0 <;>
    simp [heartbeat_acc, h, f1, f2, f3, f4, f5, f6, f7, f8, f9, f10, f11,
      f12, f13, f14, c1, c2]

/-- Non-first branch: log slots other than the write cursor are
unchanged. -/
theorem acc_else_log_frame (hb : Heartbeat) (h : ¬ hb.first_timestamp = -1)
    (tag : Int) (a : ℚ) (t : Int) (r : ℚ) (i : Nat)
    (hi : i ≠ hb.buffer_index) :
    (heartbeat_acc hb tag a t r).1.log i = hb.log i := by
  obtain ⟨f1, f2, f3, f4, f5, f6, f7, f8, f9, f10, f11, f12, f13, f14⟩ :=
    hb_window_frame { hb with last_timestamp := t, last_energy := r / 1000000 }
      (t - hb.last_timestamp) a (r / 1000000 - hb.last_energy)
  by_cases c1 : (hb.buffer_index + 1) % hb.buffer_depth = 0 <;>
  by_cases c2 : (hb.read_index + 1) % hb.buffer_depth = 0 <;>
    simp [heartbeat_acc, h, f1, f2, f3, f4, f5, f6, f7, f8, f9, f10, f11,
      f12, f13, f14, c1, c2, Function.update_noteq hi]

/-- Non-first branch: the record stored at the write cursor carries the
beat number (the pre-increment counter), the caller's tag and accuracy,
the captured timestamp, and the computed metric values. -/
theorem acc_else_log_rec (hb : Heartbeat) (h : ¬ hb.first_timestamp = -1)
    (tag : Int) (a : ℚ) (t : Int) (r : ℚ) :
    (heartbeat_acc hb tag a t r).1.log hb.buffer_index =
      { beat := hb.counter
        tag := tag
        timestamp := t
        global_rate := (((hb.counter : ℚ) + 1)
          / ((t - hb.first_timestamp : Int) : ℚ)) * 1000000000
        window_rate := (hb_window_average_accuracy
          { hb with last_timestamp := t, last_energy := r / 1000000 }
          (t - hb.last_timestamp) a (r / 1000000 - hb.last_energy)).2.1
        instant_rate := (1 / ((t - hb.last_timestamp : Int) : ℚ)) * 1000000000
        global_accuracy := (hb.global_accuracy + a) / ((hb.counter : ℚ) + 1)
        window_accuracy := (hb_window_average_accuracy
          { hb with last_timestamp := t, last_energy := r / 1000000 }
          (t - hb.last_timestamp) a (r / 1000000 - hb.last_energy)).2.2.1
        instant_accuracy := a
        global_power := ((hb.total_energy + (r / 1000000 - hb.last_energy))
          / ((t - hb.first_timestamp : Int) : ℚ)) * 1000000000
        window_power := (hb_window_average_accuracy
          { hb with last_timestamp := t, last_energy := r / 1000000 }
          (t - hb.last_timestamp) a (r / 1000000 - hb.last_energy)).2.2.2
        instant_power := ((r / 1000000 - hb.last_energy)
          / ((t - hb.last_timestamp : Int) : ℚ)) * 1000000000 } := by
  obtain ⟨f1, f2, f3, f4, f5, f6, f7, f8, f9, f10, f11, f12, f13, f14⟩ :=
    hb_window_frame { hb with last_timestamp := t, last_energy := r / 1000000 }
      (t - hb.last_timestamp) a (r / 1000000 - hb.last_energy)
  by_cases c1 : (hb.buffer_index + 1) % hb.buffer_depth = 0 <;>
  by_cases c2 : (hb.read_index + 1) % hb.buffer_depth = 0 <;>
    simp [heartbeat_acc, h, f1, f2, f3, f4, f5, f6, f7, f8, f9, f10, f11,
      f12, f13, f14, c1, c2]

/-- Non-first branch: a chunk is appended to the text sink exactly when
the incremented write cursor is a multiple of `buffer_depth` and a text
sink is open; the chunk is rows `0 .. buffer_index` of the updated
log. -/
theorem acc_else_flushes (hb : Heartbeat) (h : ¬ hb.first_timestamp = -1)
    (tag : Int) (a : ℚ) (t : Int) (r : ℚ) :
    (heartbeat_acc hb tag a t r).1.flushes =
      if (hb.buffer_index + 1) % hb.buffer_depth = 0 then
        (if hb.text_file then
          hb.flushes ++ [(List.range (hb.buffer_index + 1)).map
            ((heartbeat_acc hb tag a t r).1.log)]
        else hb.flushes)
      else hb.flushes := by
  obtain ⟨f1, f2, f3, f4, f5, f6, f7, f8, f9, f10, f11, f12, f13, f14⟩ :=
    hb_window_frame { hb with last_timestamp := t, last_energy := r / 1000000 }
      (t - hb.last_timestamp) a (r / 1000000 - hb.last_energy)
  by_cases c1 : (hb.buffer_index + 1) % hb.buffer_depth = 0 <;>
  by_cases c2 : (hb.read_index + 1) % hb.buffer_depth = 0 <;>
    simp [heartbeat_acc, hb_flush_chunk, h, f1, f2, f3, f4, f5, f6, f7, f8,
      f9, f10, f11, f12, f13, f14, c1, c2]

/-- Non-first branch: the window-relevant fields of the result are those
produced by the sliding-window helper call. -/
theorem acc_else_winfields (hb : Heartbeat) (h : ¬ hb.first_timestamp = -1)
    (tag : Int) (a : ℚ) (t : Int) (r : ℚ) :
    (heartbeat_acc hb tag a t r).1.window =
      (hb_window_average_accuracy
        { hb with last_timestamp := t, last_energy := r / 1000000 }
        (t - hb.last_timestamp) a (r / 1000000 - hb.last_energy)).1.window ∧
    (heartbeat_acc hb tag a t r).1.accuracy_window =
      (hb_window_average_accuracy
        { hb with last_timestamp := t, last_energy := r / 1000000 }
        (t - hb.last_timestamp) a (r / 1000000 - hb.last_energy)).1.accuracy_window ∧
    (heartbeat_acc hb tag a t r).1.power_window =
      (hb_window_average_accuracy
        { hb with last_timestamp := t, last_energy := r / 1000000 }
        (t - hb.last_timestamp) a (r / 1000000 - hb.last_energy)).1.power_window ∧
    (heartbeat_acc hb tag a t r).1.current_index =
      (hb_window_average_accuracy
        { hb with last_timestamp := t, last_energy := r / 1000000 }
        (t - hb.last_timestamp) a (r / 1000000 - hb.last_energy)).1.current_index ∧
    (heartbeat_acc hb tag a t r).1.steady_state =
      (hb_window_average_accuracy
        { hb with last_timestamp := t, last_energy := r / 1000000 }
        (t - hb.last_timestamp) a (r / 1000000 - hb.last_energy)).1.steady_state ∧
    (heartbeat_acc hb tag a t r).1.last_average_time =
      (hb_window_average_accuracy
        { hb with last_timestamp := t, last_energy := r / 1000000 }
        (t - hb.last_timestamp) a (r / 1000000 - hb.last_energy)).1.last_average_time ∧
    (heartbeat_acc hb tag a t r).1.last_average_accuracy =
      (hb_window_average_accuracy
        { hb with last_timestamp := t, last_energy := r / 1000000 }
        (t - hb.last_timestamp) a (r / 1000000 - hb.last_energy)).1.last_average_accuracy := by
  obtain ⟨f1, f2, f3, f4, f5, f6, f7, f8, f9, f10, f11, f12, f13, f14⟩ :=
    hb_window_frame { hb with last_timestamp := t, last_energy := r / 1000000 }
      (t - hb.last_timestamp) a (r / 1000000 - hb.last_energy)
  by_cases c1 : (hb.buffer_index + 1) % hb.buffer_depth = 0 <;>
  by_cases c2 : (hb.read_index + 1) % hb.buffer_depth = 0 <;>
    simp [heartbeat_acc, h, f5, f6, f7, c1, c2]

/-- The window invariant only depends on the window-relevant fields. -/
theorem winInv_of_fields (W : Nat) (s : List WSample) (st st' : Heartbeat)
    (h : WinInv W s st)
    (e0 : st'.window_size = st.window_size)
    (e1 : st'.window = st.window)
    (e2 : st'.accuracy_window = st.accuracy_window)
    (e3 : st'.power_window = st.power_window)
    (e4 : st'.current_index = st.current_index)
    (e5 : st'.steady_state = st.steady_state)
    (e6 : st'.last_average_time = st.last_average_time)
    (e7 : st'.last_average_accuracy = st.last_average_accuracy) :
    WinInv W s st' := by
  unfold WinInv at h ⊢
  rw [e0, e1, e2, e3, e4, e5, e6, e7]
  exact h

/-- Unfolding one trailing call out of a run. -/
theorem hb_run_concat (hb : Heartbeat) (l : List HBInput) (x : HBInput) :
    hb_run hb (l ++ [x]) =
      (heartbeat_acc (hb_run hb l) x.tag x.accuracy x.time x.reading).1 := by
  simp [hb_run, List.foldl_append]

/-- A nonempty list's `getD 0` is a member. -/
theorem getD_zero_mem {α : Type} (l : List α) (d : α) (h : 1 ≤ l.length) :
    l.getD 0 d ∈ l := by
  rw [List.getD_eq_getElem _ _ (by omega)]
  exact List.getElem_mem _

/-- Extending the input sequence extends the helper sample sequence by
the new beat's deltas. -/
theorem hbDeltas_concat (l : List HBInput) (x : HBInput)
    (hne : 1 ≤ l.length) :
    hbDeltas (l ++ [x]) =
      hbDeltas l ++
        [{ time := x.time - (l.getD (l.length - 1) dInput).time
           accuracy := x.accuracy
           energy := x.reading / 1000000
             - (l.getD (l.length - 1) dInput).reading / 1000000 }] := by
  unfold hbDeltas
  obtain ⟨m, hm⟩ : ∃ m, l.length = m + 1 := ⟨l.length - 1, by omega⟩
  have hlen : (l ++ [x]).length - 1 = m + 1 := by
    simp [hm]
  rw [hlen, hm, List.range_succ, List.map_append]
  simp only [Nat.add_sub_cancel]
  congr 1
  · refine List.map_congr_left (fun j hj => ?_)
    have hj' : j < m := List.mem_range.mp hj
    have e1 : (l ++ [x]).getD (j + 1) dInput = l.getD (j + 1) dInput :=
      List.getD_append _ _ _ _ (by omega)
    have e2 : (l ++ [x]).getD j dInput = l.getD j dInput :=
      List.getD_append _ _ _ _ (by omega)
    rw [e1, e2]
  · have e1 : (l ++ [x]).getD (m + 1) dInput = x := by
      rw [← hm]
      exact getD_concat_last l x dInput
    have e2 : (l ++ [x]).getD m dInput = l.getD m dInput :=
      List.getD_append _ _ _ _ (by omega)
    simp only [List.map_cons, List.map_nil]
    rw [e1, e2]

/-- Basic facts about a run from a fresh engine: the beat counter, the
cached timestamps and energy, and the immutable configuration, given
nonnegative clock readings. -/
theorem run_base (W B : Nat) (tf : Bool) (w0 : List Int) (a0 p0 : List ℚ)
    (log0 : Nat → LogRecord) (inputs : List HBInput)
    (hpos : ∀ inp ∈ inputs, 0 ≤ inp.time) (hne : 1 ≤ inputs.length) :
    (hb_run (hb_init W B tf w0 a0 p0 log0) inputs).counter =
        (inputs.length : Int) ∧
    (hb_run (hb_init W B tf w0 a0 p0 log0) inputs).first_timestamp =
        (inputs.getD 0 dInput).time ∧
    (hb_run (hb_init W B tf w0 a0 p0 log0) inputs).last_timestamp =
        (inputs.getD (inputs.length - 1) dInput).time ∧
    (hb_run (hb_init W B tf w0 a0 p0 log0) inputs).last_energy =
        (inputs.getD (inputs.length - 1) dInput).reading / 1000000 ∧
    (hb_run (hb_init W B tf w0 a0 p0 log0) inputs).buffer_depth = B ∧
    (hb_run (hb_init W B tf w0 a0 p0 log0) inputs).window_size = W ∧
    (hb_run (hb_init W B tf w0 a0 p0 log0) inputs).text_file = tf := by
  induction inputs using List.reverseRecOn with
  | nil => simp at hne
  | append_singleton l x ih =>
    rw [hb_run_concat]
    by_cases hl : 1 ≤ l.length
    · obtain ⟨ic, ift, ilt, ile, ibd, iws, itf⟩ :=
        ih (fun inp hinp => hpos inp (by simp [hinp])) hl
      have hstep : ¬ (hb_run (hb_init W B tf w0 a0 p0 log0) l).first_timestamp
          = -1 := by
        rw [ift]
        have := hpos (l.getD 0 dInput)
          (List.mem_append_left _ (getD_zero_mem l dInput hl))
        omega
      obtain ⟨e1, e2, e3, e4, e5, e6, e7, _, _⟩ :=
        acc_else_scalars _ hstep x.tag x.accuracy x.time x.reading
      have hlen : (l ++ [x]).length = l.length + 1 := by simp
      refine ⟨?_, ?_, ?_, ?_, ?_, ?_, ?_⟩
      · rw [e1, ic, hlen]
        push_cast
        ring
      · rw [e2, ift, List.getD_append _ _ _ _ (by omega)]
      · rw [e3, hlen, Nat.add_sub_cancel, getD_concat_last]
      · rw [e4, hlen, Nat.add_sub_cancel, getD_concat_last]
      · rw [e5, ibd]
      · rw [e6, iws]
      · rw [e7, itf]
    · have hl0 : l = [] := by
        cases l with
        | nil => rfl
        | cons y ys => simp at hl
      subst hl0
      rw [show hb_run (hb_init W B tf w0 a0 p0 log0) [] =
          hb_init W B tf w0 a0 p0 log0 from rfl]
      rw [heartbeat_acc_first _ rfl x.tag x.accuracy x.time x.reading]
      simp [hb_init]

/-- After at least one beat with nonnegative clock values, the engine's
window state satisfies the sliding-window invariant for the per-beat
delta samples. -/
theorem run_winInv (W B : Nat) (hW : 1 ≤ W) (tf : Bool) (w0 : List Int)
    (a0 p0 : List ℚ) (log0 : Nat → LogRecord)
    (hlw : w0.length = W) (hla : a0.length = W) (hlp : p0.length = W)
    (inputs : List HBInput) (hpos : ∀ inp ∈ inputs, 0 ≤ inp.time)
    (hne : 1 ≤ inputs.length) :
    WinInv W (hbDeltas inputs)
      (hb_run (hb_init W B tf w0 a0 p0 log0) inputs) := by
  induction inputs using List.reverseRecOn with
  | nil => simp at hne
  | append_singleton l x ih =>
    rw [hb_run_concat]
    by_cases hl : 1 ≤ l.length
    · obtain ⟨ic, ift, ilt, ile, ibd, iws, itf⟩ :=
        run_base W B tf w0 a0 p0 log0 l
          (fun inp hinp => hpos inp (List.mem_append_left _ hinp)) hl
      have hstep :
          ¬ (hb_run (hb_init W B tf w0 a0 p0 log0) l).first_timestamp
            = -1 := by
        rw [ift]
        have := hpos (l.getD 0 dInput)
          (List.mem_append_left _ (getD_zero_mem l dInput hl))
        omega
      have ihc := ih (fun inp hinp => hpos inp (List.mem_append_left _ hinp)) hl
      rw [hbDeltas_concat l x hl]
      have hin2 : WinInv W (hbDeltas l)
          { hb_run (hb_init W B tf w0 a0 p0 log0) l with
            last_timestamp := x.time, last_energy := x.reading / 1000000 } :=
        winInv_of_fields W _ _ _ ihc rfl rfl rfl rfl rfl rfl rfl rfl
      have hstep2 := winInv_step W hW (hbDeltas l) _ hin2
        { time := x.time - (l.getD (l.length - 1) dInput).time
          accuracy := x.accuracy
          energy := x.reading / 1000000
            - (l.getD (l.length - 1) dInput).reading / 1000000 }
      obtain ⟨g1, g2, g3, g4, g5, g6, g7⟩ :=
        acc_else_winfields _ hstep x.tag x.accuracy x.time x.reading
      obtain ⟨_, _, _, _, _, e6, _, _, _⟩ :=
        acc_else_scalars _ hstep x.tag x.accuracy x.time x.reading
      obtain ⟨f1, f2, f3, f4, f5, f6, f7, f8, f9, f10, f11, f12, f13, f14⟩ :=
        hb_window_frame
          { hb_run (hb_init W B tf w0 a0 p0 log0) l with
            last_timestamp := x.time, last_energy := x.reading / 1000000 }
          (x.time - (hb_run (hb_init W B tf w0 a0 p0 log0) l).last_timestamp)
          x.accuracy
          (x.reading / 1000000
            - (hb_run (hb_init W B tf w0 a0 p0 log0) l).last_energy)
      rw [ilt, ile] at g1 g2 g3 g4 g5 g6 g7
      refine winInv_of_fields W _ _ _ hstep2 ?_ g1 g2 g3 g4 g5 g6 g7
      rw [e6, iws]
      rw [ilt, ile] at f8
      rw [f8]
      exact iws.symm
    · have hl0 : l = [] := by
        cases l with
        | nil => rfl
        | cons y ys => simp at hl
      subst hl0
      rw [show hb_run (hb_init W B tf w0 a0 p0 log0) [] =
          hb_init W B tf w0 a0 p0 log0 from rfl]
      rw [heartbeat_acc_first _ rfl x.tag x.accuracy x.time x.reading]
      have hd : hbDeltas ([] ++ [x]) = [] := by simp [hbDeltas]
      rw [hd]
      refine winInv_nil W hW _ rfl ?_ ?_ ?_ rfl rfl
      · simp [hb_init, List.length_set, hlw]
      · simp [hb_init, List.length_set, hla]
      · simp [hb_init, List.length_set, hlp]

theorem mod_pred_of_dvd (N B : Nat) (hB : 1 ≤ B) (h : (N + 1) % B = 0) :
    N % B = B - 1 := by
  by_cases h2 : N % B + 1 = B
  · omega
  · exfalso
    have hlt : N % B + 1 < B :=
      lt_of_le_of_ne (Nat.succ_le_of_lt (Nat.mod_lt N hB)) h2
    rw [← Nat.mod_add_mod, Nat.mod_eq_of_lt hlt] at h
    omega

theorem mod_succ_of_ne (N B : Nat) (hB : 1 ≤ B) (h : (N + 1) % B ≠ 0) :
    (N + 1) % B = N % B + 1 := by
  by_cases h2 : N % B + 1 = B
  · exfalso
    apply h
    rw [← Nat.mod_add_mod, h2, Nat.mod_self]
  · have hlt : N % B + 1 < B :=
      lt_of_le_of_ne (Nat.succ_le_of_lt (Nat.mod_lt N hB)) h2
    rw [← Nat.mod_add_mod, Nat.mod_eq_of_lt hlt]

theorem div_succ_dvd (N B : Nat) (h : (N + 1) % B = 0) :
    (N + 1) / B = N / B + 1 := by
  rw [Nat.succ_div, if_pos (Nat.dvd_of_mod_eq_zero h)]

theorem div_succ_ne (N B : Nat) (h : (N + 1) % B ≠ 0) :
    (N + 1) / B = N / B := by
  rw [Nat.succ_div, if_neg (fun hd => h (Nat.mod_eq_zero_of_dvd hd)),
    Nat.add_zero]

/-- Ring-log bookkeeping for `buffer_depth ≥ 2` with an open text sink:
cursor positions, flush count, the beat numbers listed by the
concatenation of all flushed chunks, the size of every chunk, and the
beat numbers of the not-yet-flushed log rows. -/
theorem run_flush (W B : Nat) (hB : 2 ≤ B) (w0 : List Int)
    (a0 p0 : List ℚ) (log0 : Nat → LogRecord) (inputs : List HBInput)
    (hpos : ∀ inp ∈ inputs, 0 ≤ inp.time) :
    (hb_run (hb_init W B true w0 a0 p0 log0) inputs).buffer_index =
        inputs.length % B ∧
    (hb_run (hb_init W B true w0 a0 p0 log0) inputs).read_index =
        (inputs.length - 1) % B ∧
    (hb_run (hb_init W B true w0 a0 p0 log0) inputs).flushes.length =
        inputs.length / B ∧
    ((hb_run (hb_init W B true w0 a0 p0 log0) inputs).flushes.flatten.map
        (fun q => q.beat)) =
      (List.range (B * (inputs.length / B))).map
        (fun j : Nat => (j : Int)) ∧
    (∀ i : Nat, i < inputs.length % B →
      ((hb_run (hb_init W B true w0 a0 p0 log0) inputs).log i).beat =
        ((B * (inputs.length / B) + i : Nat) : Int)) ∧
    (∀ c ∈ (hb_run (hb_init W B true w0 a0 p0 log0) inputs).flushes,
      c.length = B) := by
  have hB1 : 1 ≤ B := by omega
  induction inputs using List.reverseRecOn with
  | nil =>
    refine ⟨by simp [hb_run, hb_init], by simp [hb_run, hb_init],
      by simp [hb_run, hb_init], by simp [hb_run, hb_init], ?_,
      by simp [hb_run, hb_init]⟩
    intro i hi
    simp at hi
  | append_singleton l x ih =>
    rw [hb_run_concat]
    by_cases hl : 1 ≤ l.length
    · obtain ⟨ic, ift, ilt, ile, ibd, iws, itf⟩ :=
        run_base W B true w0 a0 p0 log0 l
          (fun inp hinp => hpos inp (List.mem_append_left _ hinp)) hl
      have hstep :
          ¬ (hb_run (hb_init W B true w0 a0 p0 log0) l).first_timestamp
            = -1 := by
        rw [ift]
        have := hpos (l.getD 0 dInput)
          (List.mem_append_left _ (getD_zero_mem l dInput hl))
        omega
      obtain ⟨ibi, iri, ifl, ijn, ilog, ichk⟩ :=
        ih (fun inp hinp => hpos inp (List.mem_append_left _ hinp))
      have hlen : (l ++ [x]).length = l.length + 1 := by simp
      have hbi := acc_else_buffer_index _ hstep x.tag x.accuracy x.time
        x.reading
      have hri := acc_else_read_index _ hstep x.tag x.accuracy x.time
        x.reading
      have hfl := acc_else_flushes _ hstep x.tag x.accuracy x.time x.reading
      have hrec := acc_else_log_rec _ hstep x.tag x.accuracy x.time x.reading
      rw [ibd, ibi] at hbi hfl
      rw [ibd, iri] at hri
      rw [ibi] at hrec
      rw [itf] at hfl
      have hNsub : l.length - 1 + 1 = l.length := by omega
      by_cases hdvd : (l.length % B + 1) % B = 0
      · -- a flush happens at this beat
        have hdvd' : (l.length + 1) % B = 0 := by
          rw [← Nat.mod_add_mod]; exact hdvd
        have hpred : l.length % B = B - 1 := mod_pred_of_dvd _ _ hB1 hdvd'
        have hdiv : (l.length + 1) / B = l.length / B + 1 :=
          div_succ_dvd _ _ hdvd'
        rw [if_pos hdvd] at hbi hfl
        rw [if_pos rfl] at hfl
        have hrngB : l.length % B + 1 = B := by omega
        -- the flushed chunk lists the beats of the last B calls in order
        have hchunk :
            ((List.range (l.length % B + 1)).map
                ((heartbeat_acc (hb_run (hb_init W B true w0 a0 p0 log0) l)
                  x.tag x.accuracy x.time x.reading).1.log)).map
              (fun q => q.beat) =
            (List.range B).map
              (fun i => ((B * (l.length / B) + i : Nat) : Int)) := by
          rw [hrngB, List.map_map]
          refine List.map_congr_left (fun i hi => ?_)
          have hiB : i < B := List.mem_range.mp hi
          by_cases hie : i = l.length % B
          · subst hie
            simp only [Function.comp_apply]
            rw [hrec]
            dsimp only
            rw [ic]
            have := Nat.div_add_mod l.length B
            congr 1
            omega
          · simp only [Function.comp_apply]
            rw [acc_else_log_frame _ hstep x.tag x.accuracy x.time x.reading
              i (by rw [ibi]; exact hie)]
            rw [ilog i (by omega)]
        refine ⟨?_, ?_, ?_, ?_, ?_, ?_⟩
        · rw [hbi, hlen, hdvd']
        · rw [hri, hlen, Nat.add_sub_cancel]
          have hc0 : l.length % B ≠ 0 := by omega
          have hcond : ((l.length - 1) % B + 1) % B = l.length % B := by
            rw [Nat.mod_add_mod, hNsub]
          rw [if_neg (by rw [hcond]; exact hc0)]
          have := mod_succ_of_ne (l.length - 1) B hB1
            (by rw [hNsub]; exact hc0)
          rw [hNsub] at this
          omega
        · rw [hfl, hlen, hdiv]
          simp [ifl]
        · rw [hfl, hlen, hdiv]
          rw [List.flatten_append]
          simp only [List.flatten_cons, List.flatten_nil, List.append_nil]
          rw [List.map_append, ijn, hchunk]
          have : B * (l.length / B + 1) = B * (l.length / B) + B := by ring
          rw [this, List.range_add, List.map_append, List.map_map]
          congr 1
        · intro i hi
          rw [hlen, hdvd'] at hi
          omega
        · intro c hc
          rw [hfl] at hc
          rcases List.mem_append.mp hc with hc1 | hc2
          · exact ichk c hc1
          · have : c = (List.range (l.length % B + 1)).map
                ((heartbeat_acc (hb_run (hb_init W B true w0 a0 p0 log0) l)
                  x.tag x.accuracy x.time x.reading).1.log) := by
              simpa using hc2
            rw [this]
            simp [hrngB]
      · -- no flush at this beat
        have hdvd' : (l.length + 1) % B ≠ 0 := by
          rw [← Nat.mod_add_mod]; exact hdvd
        have hdiv : (l.length + 1) / B = l.length / B :=
          div_succ_ne _ _ hdvd'
        have hmod : (l.length + 1) % B = l.length % B + 1 :=
          mod_succ_of_ne _ _ hB1 hdvd'
        rw [if_neg hdvd] at hbi hfl
        refine ⟨?_, ?_, ?_, ?_, ?_, ?_⟩
        · rw [hbi, hlen, hmod]
        · rw [hri, hlen, Nat.add_sub_cancel]
          have hcond : ((l.length - 1) % B + 1) % B = l.length % B := by
            rw [Nat.mod_add_mod, hNsub]
          by_cases hc : l.length % B = 0
          · rw [if_pos (by rw [hcond]; exact hc), hc]
          · rw [if_neg (by rw [hcond]; exact hc)]
            have := mod_succ_of_ne (l.length - 1) B hB1
              (by rw [hNsub]; exact hc)
            rw [hNsub] at this
            omega
        · rw [hfl, hlen, hdiv, ifl]
        · rw [hfl, hlen, hdiv, ijn]
        · intro i hi
          rw [hlen, hmod] at hi
          rw [hlen, hdiv]
          by_cases hie : i = l.length % B
          · subst hie
            rw [hrec]
            dsimp only
            rw [ic]
            have := Nat.div_add_mod l.length B
            congr 1
            omega
          · rw [acc_else_log_frame _ hstep x.tag x.accuracy x.time x.reading
              i (by rw [ibi]; exact hie)]
            exact ilog i (by omega)
        · intro c hc
          rw [hfl] at hc
          exact ichk c hc
    · have hl0 : l = [] := by
        cases l with
        | nil => rfl
        | cons y ys => simp at hl
      subst hl0
      rw [show hb_run (hb_init W B true w0 a0 p0 log0) [] =
          hb_init W B true w0 a0 p0 log0 from rfl]
      rw [heartbeat_acc_first _ rfl x.tag x.accuracy x.time x.reading]
      have h1B : 1 % B = 1 := Nat.mod_eq_of_lt (by omega)
      have h1d : 1 / B = 0 := Nat.div_eq_of_lt (by omega)
      refine ⟨?_, ?_, ?_, ?_, ?_, ?_⟩
      · simp [hb_init, h1B]
      · simp [hb_init]
      · simp [hb_init, h1d]
      · simp [hb_init, h1d]
      · intro i hi
        simp only [List.length_append, List.length_singleton,
          List.length_nil, Nat.zero_add, h1B] at hi
        have hi0 : i = 0 := by omega
        subst hi0
        simp [hb_init, h1d, Function.update_same]
      · intro c hc
        simp [hb_init] at hc

/-! ### Polling-backend lemmas -/

/-- A run of the polling backend from a successful init keeps the device
open and the start time fixed, and its running average is zero whenever
its sample count is zero. -/
theorem osp_run_inv (start_time : Int) (ops : List OspOp) :
    (osp_run (osp_init true start_time) ops).device = true ∧
    (osp_run (osp_init true start_time) ops).osp_start_time = start_time ∧
    ((osp_run (osp_init true start_time) ops).osp_hb_pwr_avg_count = 0 →
      (osp_run (osp_init true start_time) ops).osp_hb_pwr_avg = 0) := by
  induction ops using List.reverseRecOn with
  | nil => exact ⟨rfl, rfl, fun _ => rfl⟩
  | append_singleton l op ih =>
    obtain ⟨ihd, ihs, ihc⟩ := ih
    have hconc : osp_run (osp_init true start_time) (l ++ [op]) =
        osp_step (osp_run (osp_init true start_time) l) op := by
      simp [osp_run, List.foldl_append]
    rw [hconc]
    cases op with
    | sample w =>
      refine ⟨ihd, ihs, ?_⟩
      intro h
      simp [osp_step, osp_poll_sample] at h
    | read a b =>
      simp only [osp_step]
      unfold hb_energy_read_total_osp
      rw [if_neg (by rw [ihd]; simp)]
      exact ⟨ihd, ihs, fun _ => rfl⟩

/-- The carried-forward average, once positive, stays positive across
any event. -/
theorem osp_avg_last_pos (s : OspState) (op : OspOp)
    (h : 0 < s.osp_hb_pwr_avg_last) :
    0 < (osp_step s op).osp_hb_pwr_avg_last := by
  cases op with
  | sample w => exact h
  | read a b =>
    simp only [osp_step]
    unfold hb_energy_read_total_osp
    by_cases hd : s.device = false
    · rw [if_pos hd]; exact h
    · rw [if_neg hd]
      dsimp only
      by_cases havg : 0 < s.osp_hb_pwr_avg
      · rw [if_pos havg]; exact havg
      · rw [if_neg havg]; exact h

/-- Behavior of `read_delta` on a state whose running average is
zero (no samples since the last read): the old carried average is kept
and used for the energy accumulation of the interval. -/
theorem osp_read_carry (s : OspState) (hd : s.device = true)
    (hz : s.osp_hb_pwr_avg = 0) (last curr : Int) :
    (hb_energy_read_total_osp s last curr).1.osp_hb_pwr_avg_last =
        s.osp_hb_pwr_avg_last ∧
    (hb_energy_read_total_osp s last curr).2 =
      s.osp_total_energy + s.osp_hb_pwr_avg_last *
        diff_sec (if last < 0 then s.osp_start_time else last) curr := by
  unfold hb_energy_read_total_osp
  rw [if_neg (by rw [hd]; simp), hz, if_neg (lt_irrefl (0 : ℚ))]
  exact ⟨rfl, rfl⟩

/-! ### Claim theorems -/

/-- Arbitrary log record, used as uninitialized log memory in concrete
instantiations. -/
def dRec : LogRecord :=
  { beat := 0, tag := 0, timestamp := 0, global_rate := 0, window_rate := 0
    instant_rate := 0, global_accuracy := 0, window_accuracy := 0
    instant_accuracy := 0, global_power := 0, window_power := 0
    instant_power := 0 }

theorem hbDeltas_length (inputs : List HBInput) :
    (hbDeltas inputs).length = inputs.length - 1 := by
  simp [hbDeltas]

theorem hbDeltas_getD (inputs : List HBInput) (j : Nat)
    (hj : j < inputs.length - 1) :
    (hbDeltas inputs).getD j dSample =
      { time := (inputs.getD (j + 1) dInput).time - (inputs.getD j dInput).time
        accuracy := (inputs.getD (j + 1) dInput).accuracy
        energy := (inputs.getD (j + 1) dInput).reading / 1000000
          - (inputs.getD j dInput).reading / 1000000 } := by
  rw [List.getD_eq_getElem _ _ (by rw [hbDeltas_length]; exact hj)]
  simp [hbDeltas]

/-- The result state of `heartbeat_acc` always caches the converted
energy reading, on the first call and on all later calls alike. -/
theorem acc_last_energy (hb : Heartbeat) (tag : Int) (a : ℚ) (t : Int)
    (r : ℚ) : (heartbeat_acc hb tag a t r).1.last_energy = r / 1000000 := by
  by_cases h : hb.first_timestamp = -1
  · rw [heartbeat_acc_first _ h]
  · exact (acc_else_scalars hb h tag a t r).2.2.2.1

/-- C1: for every window size ≥ 1 and every sample sequence fed to the
sliding-window helper `hb_window_average_accuracy`, the incrementally
maintained window time and accuracy averages equal a brute-force
recomputation over the trailing samples: divisor `n` over the `n`
samples seen so far while `n ≤ window_size`, and exactly the last
`window_size` samples once steady state is reached.  The equality is
exact in the rational model, hence holds within any relative
tolerance (in particular 1e-9). -/
theorem C1_window_matches_brute_force (W : Nat) (hW : 1 ≤ W)
    (hb0 : Heartbeat) (h0 : hb0.window_size = W)
    (h1 : hb0.window.length = W) (h2 : hb0.accuracy_window.length = W)
    (h3 : hb0.power_window.length = W) (h4 : hb0.current_index = 0)
    (h5 : hb0.steady_state = false) (s : List WSample)
    (hn : 1 ≤ s.length) :
    (winFold hb0 s).last_average_time = bruteForceTimeAvg s W ∧
    (winFold hb0 s).last_average_accuracy = bruteForceAccuracyAvg s W := by
  obtain ⟨_, _, _, _, _, _, _, hsum⟩ :=
    winInv_winFold W hW hb0 (winInv_nil W hW hb0 h0 h1 h2 h3 h4 h5) s
  obtain ⟨ha, hb⟩ := hsum hn
  exact ⟨ha, hb⟩

/-- Witness for C1: window size 2, three samples (one past steady
state). -/
theorem C1_window_matches_brute_force_witness :
    1 ≤ ([⟨10, 1, 2⟩, ⟨20, 2, 4⟩, ⟨30, 3, 6⟩] : List WSample).length ∧
    ((winFold (hb_init 2 4 true [0, 0] [0, 0] [0, 0] (fun _ => dRec))
        [⟨10, 1, 2⟩, ⟨20, 2, 4⟩, ⟨30, 3, 6⟩]).last_average_time =
      bruteForceTimeAvg [⟨10, 1, 2⟩, ⟨20, 2, 4⟩, ⟨30, 3, 6⟩] 2 ∧
    (winFold (hb_init 2 4 true [0, 0] [0, 0] [0, 0] (fun _ => dRec))
        [⟨10, 1, 2⟩, ⟨20, 2, 4⟩, ⟨30, 3, 6⟩]).last_average_accuracy =
      bruteForceAccuracyAvg [⟨10, 1, 2⟩, ⟨20, 2, 4⟩, ⟨30, 3, 6⟩] 2) :=
  ⟨by decide,
    C1_window_matches_brute_force 2 (by decide) _ rfl (by decide) (by decide)
      (by decide) rfl rfl [⟨10, 1, 2⟩, ⟨20, 2, 4⟩, ⟨30, 3, 6⟩] (by decide)⟩

/-- C3: with window size `W ≥ 1`, after any run the `steady_state` flag
is true exactly when at least `W + 1` beats have occurred: it is false
after every beat up to and including beat `W`, becomes true exactly at
beat `W + 1`, and never reverts. -/
theorem C3_steady_state_transition (W B : Nat) (hW : 1 ≤ W) (tf : Bool)
    (w0 : List Int) (a0 p0 : List ℚ) (log0 : Nat → LogRecord)
    (hlw : w0.length = W) (hla : a0.length = W) (hlp : p0.length = W)
    (inputs : List HBInput) (hpos : ∀ inp ∈ inputs, 0 ≤ inp.time) :
    (hb_run (hb_init W B tf w0 a0 p0 log0) inputs).steady_state = true ↔
      W + 1 ≤ inputs.length := by
  by_cases hne : 1 ≤ inputs.length
  · obtain ⟨_, _, _, _, _, hss, _, _⟩ :=
      run_winInv W B hW tf w0 a0 p0 log0 hlw hla hlp inputs hpos hne
    rw [hss, hbDeltas_length]
    simp only [decide_eq_true_eq]
    omega
  · have h0 : inputs = [] := by
      cases inputs with
      | nil => rfl
      | cons y ys => simp at hne
    subst h0
    show (hb_init W B tf w0 a0 p0 log0).steady_state = true ↔ _
    simp [hb_init]

/-- Witness for C3: window size 1, two beats, steady state reached
exactly at beat 2. -/
theorem C3_steady_state_transition_witness :
    (∀ inp ∈ ([⟨0, 1, 5, 0⟩, ⟨0, 1, 9, 0⟩] : List HBInput), 0 ≤ inp.time) ∧
    ((hb_run (hb_init 1 2 true [0] [0] [0] (fun _ => dRec))
        [⟨0, 1, 5, 0⟩, ⟨0, 1, 9, 0⟩]).steady_state = true ↔
      1 + 1 ≤ ([⟨0, 1, 5, 0⟩, ⟨0, 1, 9, 0⟩] : List HBInput).length) :=
  ⟨by decide,
    C3_steady_state_transition 1 2 (by decide) true [0] [0] [0]
      (fun _ => dRec) (by decide) (by decide) (by decide)
      [⟨0, 1, 5, 0⟩, ⟨0, 1, 9, 0⟩] (by decide)⟩

/-- C4: the first call establishes `first_timestamp = last_timestamp =
now` and `last_energy = reading` (the reading converted to Joules),
seeds window slot 0 with a zero time delta, the given accuracy and zero
energy, logs all three rate metrics and all three power metrics as zero
with all three accuracy metrics equal to the given accuracy, seeds the
global accuracy accumulator with the accuracy, resets `total_energy` to
0, sets the counter to 1, and returns the captured time. -/
theorem C4_first_call (W B : Nat) (hW : 1 ≤ W) (tf : Bool)
    (w0 : List Int) (a0 p0 : List ℚ) (log0 : Nat → LogRecord)
    (hlw : w0.length = W) (hla : a0.length = W) (hlp : p0.length = W)
    (tag : Int) (a : ℚ) (t : Int) (r : ℚ) :
    (heartbeat_acc (hb_init W B tf w0 a0 p0 log0) tag a t r).2 = t ∧
    (heartbeat_acc (hb_init W B tf w0 a0 p0 log0) tag a t
        r).1.first_timestamp = t ∧
    (heartbeat_acc (hb_init W B tf w0 a0 p0 log0) tag a t
        r).1.last_timestamp = t ∧
    (heartbeat_acc (hb_init W B tf w0 a0 p0 log0) tag a t
        r).1.last_energy = r / 1000000 ∧
    (heartbeat_acc (hb_init W B tf w0 a0 p0 log0) tag a t
        r).1.window.getD 0 0 = 0 ∧
    (heartbeat_acc (hb_init W B tf w0 a0 p0 log0) tag a t
        r).1.accuracy_window.getD 0 0 = a ∧
    (heartbeat_acc (hb_init W B tf w0 a0 p0 log0) tag a t
        r).1.power_window.getD 0 0 = 0 ∧
    (heartbeat_acc (hb_init W B tf w0 a0 p0 log0) tag a t r).1.log 0 =
      { beat := 0, tag := tag, timestamp := t, global_rate := 0
        window_rate := 0, instant_rate := 0, global_accuracy := a
        window_accuracy := a, instant_accuracy := a, global_power := 0
        window_power := 0, instant_power := 0 } ∧
    (heartbeat_acc (hb_init W B tf w0 a0 p0 log0) tag a t
        r).1.global_accuracy = a ∧
    (heartbeat_acc (hb_init W B tf w0 a0 p0 log0) tag a t
        r).1.total_energy = 0 ∧
    (heartbeat_acc (hb_init W B tf w0 a0 p0 log0) tag a t r).1.counter
        = 1 := by
  rw [heartbeat_acc_first _ rfl]
  refine ⟨rfl, rfl, rfl, rfl, ?_, ?_, ?_, ?_, ?_, rfl,
    by show (0 : Int) + 1 = 1; decide⟩
  · exact getD_set_self _ _ _ _ (by simp only [hb_init]; rw [hlw]; omega)
  · exact getD_set_self _ _ _ _ (by simp only [hb_init]; rw [hla]; omega)
  · exact getD_set_self _ _ _ _ (by simp only [hb_init]; rw [hlp]; omega)
  · simp [hb_init]
  · show (hb_init W B tf w0 a0 p0 log0).global_accuracy + a = a
    simp [hb_init]

/-- Witness for C4 at concrete parameters. -/
theorem C4_first_call_witness :
    ([0] : List Int).length = 1 ∧
    (heartbeat_acc (hb_init 1 2 true [0] [0] [0] (fun _ => dRec))
        7 (3 / 4) 5 (-1)).1.accuracy_window.getD 0 0 = 3 / 4 ∧
    (heartbeat_acc (hb_init 1 2 true [0] [0] [0] (fun _ => dRec))
        7 (3 / 4) 5 (-1)).1.counter = 1 :=
  ⟨by decide,
    (C4_first_call 1 2 (by decide) true [0] [0] [0] (fun _ => dRec)
      (by decide) (by decide) (by decide) 7 (3 / 4) 5 (-1)).2.2.2.2.2.1,
    (C4_first_call 1 2 (by decide) true [0] [0] [0] (fun _ => dRec)
      (by decide) (by decide) (by decide) 7 (3 / 4) 5
      (-1)).2.2.2.2.2.2.2.2.2.2⟩

/-- C8: `heartbeat_acc` always returns the captured timestamp and never
fails on backend errors: the backend's `-1` error sentinel (returned by
`hb_energy_read_total_osp` when the device is not initialized) is
consumed as if it were a valid energy value — the engine just caches
`-1/1e6` as the energy, with no error propagation to the caller. -/
theorem C8_returns_now_never_fails (hb : Heartbeat) (tag : Int) (a : ℚ)
    (t : Int) (r : ℚ) :
    (heartbeat_acc hb tag a t r).2 = t ∧
    (heartbeat_acc hb tag a t r).1.last_energy = r / 1000000 ∧
    (∀ (s : OspState) (last curr : Int), s.device = false →
      (hb_energy_read_total_osp s last curr).2 = -1 ∧
      (heartbeat_acc hb tag a t
          (hb_energy_read_total_osp s last curr).2).1.last_energy
        = (-1 : ℚ) / 1000000) := by
  refine ⟨heartbeat_acc_time hb tag a t r, acc_last_energy hb tag a t r, ?_⟩
  intro s last curr hdev
  have hsent : (hb_energy_read_total_osp s last curr).2 = -1 := by
    unfold hb_energy_read_total_osp
    rw [if_pos hdev]
  refine ⟨hsent, ?_⟩
  rw [hsent, acc_last_energy]

/-- Witness for C8: an uninitialized backend read feeds the sentinel
into the engine, which stores it as energy. -/
theorem C8_returns_now_never_fails_witness :
    (osp_init false 0).device = false ∧
    (heartbeat_acc (hb_init 1 2 true [0] [0] [0] (fun _ => dRec)) 0 1 5
        (hb_energy_read_total_osp (osp_init false 0) 3 7).2).1.last_energy
      = (-1 : ℚ) / 1000000 :=
  ⟨rfl,
    ((C8_returns_now_never_fails (hb_init 1 2 true [0] [0] [0]
        (fun _ => dRec)) 0 1 5 0).2.2 (osp_init false 0) 3 7 rfl).2⟩

/-- Counterexample to C5 as stated: on the very first call `read_index`
does not advance, while `buffer_index` does. -/
theorem C5_counterexample :
    ¬ ((hb_run (hb_init 1 2 true [0] [0] [0] (fun _ => dRec))
          [⟨0, 1, 5, 0⟩]).read_index =
        (hb_init 1 2 true [0] [0] [0] (fun _ => dRec)).read_index + 1) ∧
    (hb_run (hb_init 1 2 true [0] [0] [0] (fun _ => dRec))
        [⟨0, 1, 5, 0⟩]).buffer_index =
      (hb_init 1 2 true [0] [0] [0] (fun _ => dRec)).buffer_index + 1 := by
  decide

/-- C5 amended: on the very first call only `buffer_index` advances by
one (without any wrap check) while `read_index` is unchanged; on every
later call both cursors advance by one and wrap to zero at the same
modulus `buffer_depth`; hence after `N` calls `buffer_index` has
advanced `N` times and `read_index` `N - 1` times. -/
theorem C5_amended_cursor_advance (hb : Heartbeat) (tag : Int) (a : ℚ)
    (t : Int) (r : ℚ) :
    (hb.first_timestamp = -1 →
      (heartbeat_acc hb tag a t r).1.buffer_index = hb.buffer_index + 1 ∧
      (heartbeat_acc hb tag a t r).1.read_index = hb.read_index) ∧
    (¬ hb.first_timestamp = -1 →
      (heartbeat_acc hb tag a t r).1.buffer_index =
        (if (hb.buffer_index + 1) % hb.buffer_depth = 0 then 0
         else hb.buffer_index + 1) ∧
      (heartbeat_acc hb tag a t r).1.read_index =
        (if (hb.read_index + 1) % hb.buffer_depth = 0 then 0
         else hb.read_index + 1)) := by
  constructor
  · intro h
    rw [heartbeat_acc_first _ h]
    exact ⟨rfl, rfl⟩
  · intro h
    exact ⟨acc_else_buffer_index hb h tag a t r,
      acc_else_read_index hb h tag a t r⟩

/-- Witness for the amended C5 on a concrete first call. -/
theorem C5_amended_cursor_advance_witness :
    (hb_init 1 2 true [0] [0] [0] (fun _ => dRec)).first_timestamp = -1 ∧
    ((heartbeat_acc (hb_init 1 2 true [0] [0] [0] (fun _ => dRec))
        0 1 5 0).1.buffer_index =
      (hb_init 1 2 true [0] [0] [0] (fun _ => dRec)).buffer_index + 1 ∧
    (heartbeat_acc (hb_init 1 2 true [0] [0] [0] (fun _ => dRec))
        0 1 5 0).1.read_index =
      (hb_init 1 2 true [0] [0] [0] (fun _ => dRec)).read_index) :=
  ⟨rfl, (C5_amended_cursor_advance (hb_init 1 2 true [0] [0] [0]
      (fun _ => dRec)) 0 1 5 0).1 rfl⟩

/-- C9: with `buffer_depth = 1`, after the very first call the write
cursor already equals `buffer_depth` (the first call increments it
without the flush/wrap check), so the second call stores its record at
log index 1 — outside the one-slot ring buffer.  The claimed bound
`write index < buffer_depth` is violated by the code. -/
theorem C9_write_index_bound_violated :
    (hb_run (hb_init 1 1 true [0] [0] [0] (fun _ => dRec))
        [⟨0, 1, 5, 0⟩]).buffer_index = 1 ∧
    ¬ ((hb_run (hb_init 1 1 true [0] [0] [0] (fun _ => dRec))
          [⟨0, 1, 5, 0⟩]).buffer_index <
        (hb_run (hb_init 1 1 true [0] [0] [0] (fun _ => dRec))
          [⟨0, 1, 5, 0⟩]).buffer_depth) ∧
    ((hb_run (hb_init 1 1 true [0] [0] [0] (fun _ => dRec))
        [⟨0, 1, 5, 0⟩, ⟨0, 1, 7, 0⟩]).log 1).beat = 1 := by
  decide

/-- Counterexample to C2 as stated: with `buffer_depth = 1` the very
first call drives `buffer_index` up to `buffer_depth`, yet no flush
occurs and the cursor is not reset. -/
theorem C2_counterexample :
    (hb_run (hb_init 1 1 true [0] [0] [0] (fun _ => dRec))
        [⟨0, 1, 5, 0⟩]).buffer_index =
      (hb_run (hb_init 1 1 true [0] [0] [0] (fun _ => dRec))
        [⟨0, 1, 5, 0⟩]).buffer_depth ∧
    (hb_run (hb_init 1 1 true [0] [0] [0] (fun _ => dRec))
        [⟨0, 1, 5, 0⟩]).flushes = [] := by
  decide

/-- C2 amended (restricted to `buffer_depth ≥ 2`): with an open text
sink, after `N` calls exactly `N / buffer_depth` chunks of exactly
`buffer_depth` records each have been flushed (so a flush happens
exactly every `buffer_depth` calls, when `buffer_index` reaches the
modulus) and `buffer_index` sits at `N % buffer_depth`; the
concatenation of all flushed chunks lists the beats
`0 .. buffer_depth * (N / buffer_depth) - 1` — every flushed beat's
record exactly once, in call order, with no loss or duplication. -/
theorem C2_amended_flush_cadence (W B : Nat) (hB : 2 ≤ B)
    (w0 : List Int) (a0 p0 : List ℚ) (log0 : Nat → LogRecord)
    (inputs : List HBInput) (hpos : ∀ inp ∈ inputs, 0 ≤ inp.time) :
    (hb_run (hb_init W B true w0 a0 p0 log0) inputs).flushes.length =
      inputs.length / B ∧
    (∀ c ∈ (hb_run (hb_init W B true w0 a0 p0 log0) inputs).flushes,
      c.length = B) ∧
    (hb_run (hb_init W B true w0 a0 p0 log0) inputs).buffer_index =
      inputs.length % B ∧
    ((hb_run (hb_init W B true w0 a0 p0 log0) inputs).flushes.flatten.map
        (fun q => q.beat)) =
      (List.range (B * (inputs.length / B))).map
        (fun j : Nat => (j : Int)) := by
  obtain ⟨h1, h2, h3, h4, h5, h6⟩ := run_flush W B hB w0 a0 p0 log0 inputs hpos
  exact ⟨h3, h6, h1, h4⟩

/-- Witness for the amended C2: four beats with depth 2 produce two
2-record chunks listing beats 0..3 in order. -/
theorem C2_amended_flush_cadence_witness :
    (∀ inp ∈ ([⟨0, 1, 1, 0⟩, ⟨0, 1, 2, 0⟩, ⟨0, 1, 3, 0⟩, ⟨0, 1, 4, 0⟩] :
        List HBInput), 0 ≤ inp.time) ∧
    (hb_run (hb_init 1 2 true [0] [0] [0] (fun _ => dRec))
        [⟨0, 1, 1, 0⟩, ⟨0, 1, 2, 0⟩, ⟨0, 1, 3, 0⟩, ⟨0, 1, 4, 0⟩]).flushes.length =
      ([⟨0, 1, 1, 0⟩, ⟨0, 1, 2, 0⟩, ⟨0, 1, 3, 0⟩, ⟨0, 1, 4, 0⟩] :
        List HBInput).length / 2 :=
  ⟨by decide,
    (C2_amended_flush_cadence 1 2 (by decide) [0] [0] [0] (fun _ => dRec)
      [⟨0, 1, 1, 0⟩, ⟨0, 1, 2, 0⟩, ⟨0, 1, 3, 0⟩, ⟨0, 1, 4, 0⟩]
      (by decide)).1⟩

/-- C7: in the polling backend, when no samples arrived since the last
read (`count = 0`, which for any reachable state forces the running
average to be 0), `read_delta` reuses the previously carried average:
the carried value is unchanged and the interval's energy contribution
is `carried average * elapsed seconds`; moreover the carried average,
once positive, stays positive across any later event, so for a
positive interval the contribution strictly increases the total — it
is never silently zero once a non-zero average has been observed. -/
theorem C7_polling_carry_forward (start_time : Int) (ops : List OspOp)
    (last curr : Int)
    (hcount :
      (osp_run (osp_init true start_time) ops).osp_hb_pwr_avg_count = 0) :
    (osp_run (osp_init true start_time) ops).osp_hb_pwr_avg = 0 ∧
    (hb_energy_read_total_osp (osp_run (osp_init true start_time) ops)
        last curr).1.osp_hb_pwr_avg_last =
      (osp_run (osp_init true start_time) ops).osp_hb_pwr_avg_last ∧
    (hb_energy_read_total_osp (osp_run (osp_init true start_time) ops)
        last curr).2 =
      (osp_run (osp_init true start_time) ops).osp_total_energy +
        (osp_run (osp_init true start_time) ops).osp_hb_pwr_avg_last *
          diff_sec (if last < 0 then start_time else last) curr ∧
    (0 < (osp_run (osp_init true start_time) ops).osp_hb_pwr_avg_last →
      (if last < 0 then start_time else last) < curr →
      (osp_run (osp_init true start_time) ops).osp_total_energy <
        (hb_energy_read_total_osp (osp_run (osp_init true start_time) ops)
          last curr).2) ∧
    (∀ (s : OspState) (op : OspOp), 0 < s.osp_hb_pwr_avg_last →
      0 < (osp_step s op).osp_hb_pwr_avg_last) := by
  obtain ⟨hdev, hstart, hz⟩ := osp_run_inv start_time ops
  have hz0 := hz hcount
  obtain ⟨hlast, henergy⟩ := osp_read_carry _ hdev hz0 last curr
  rw [hstart] at henergy
  refine ⟨hz0, hlast, henergy, ?_, fun s op h => osp_avg_last_pos s op h⟩
  intro hA hlt
  rw [henergy]
  have hd : 0 < diff_sec (if last < 0 then start_time else last) curr := by
    unfold diff_sec
    apply div_pos
    · exact_mod_cast sub_pos.mpr hlt
    · norm_num
  have := mul_pos hA hd
  linarith

/-- Witness for C7: one sample then a read leaves the count at zero;
the next read carries the average forward. -/
theorem C7_polling_carry_forward_witness :
    (osp_run (osp_init true 0)
        [OspOp.sample 5, OspOp.read 0 10]).osp_hb_pwr_avg_count = 0 ∧
    (hb_energy_read_total_osp
        (osp_run (osp_init true 0) [OspOp.sample 5, OspOp.read 0 10])
        10 20).1.osp_hb_pwr_avg_last =
      (osp_run (osp_init true 0)
        [OspOp.sample 5, OspOp.read 0 10]).osp_hb_pwr_avg_last :=
  ⟨by decide,
    (C7_polling_carry_forward 0 [OspOp.sample 5, OspOp.read 0 10] 10 20
      (by decide)).2.1⟩

theorem constGapInputs_length (n : Nat) (t0 g : Int) (tag : Int)
    (a r : ℚ) : (constGapInputs n t0 g tag a r).length = n := by
  simp [constGapInputs]

theorem constGapInputs_getD (n : Nat) (t0 g : Int) (tag : Int) (a r : ℚ)
    (j : Nat) (hj : j < n) :
    (constGapInputs n t0 g tag a r).getD j dInput =
      { tag := tag, accuracy := a, time := t0 + (j : Int) * g
        reading := r } := by
  rw [List.getD_eq_getElem _ _ (by rw [constGapInputs_length]; exact hj)]
  simp [constGapInputs]

theorem constGapInputs_concat (n : Nat) (hn : 1 ≤ n) (t0 g : Int)
    (tag : Int) (a r : ℚ) :
    constGapInputs n t0 g tag a r =
      constGapInputs (n - 1) t0 g tag a r ++
        [{ tag := tag, accuracy := a, time := t0 + ((n : Int) - 1) * g
           reading := r }] := by
  unfold constGapInputs
  obtain ⟨m, hm⟩ : ∃ m, n = m + 1 := ⟨n - 1, by omega⟩
  subst hm
  rw [List.range_succ, List.map_append, Nat.add_sub_cancel]
  have hcast : ((m + 1 : Nat) : Int) - 1 = (m : Int) := by push_cast; ring
  rw [hcast]
  simp

theorem constGapInputs_time_pos (n : Nat) (t0 g : Int) (ht0 : 0 ≤ t0)
    (hg : 0 ≤ g) (tag : Int) (a r : ℚ) :
    ∀ inp ∈ constGapInputs n t0 g tag a r, 0 ≤ inp.time := by
  intro inp hinp
  obtain ⟨j, _, rfl⟩ := List.mem_map.mp hinp
  have hj : (0 : Int) ≤ (j : Int) * g :=
    mul_nonneg (by exact_mod_cast Nat.zero_le j) hg
  show 0 ≤ t0 + (j : Int) * g
  omega

/-- C6: with a synthetic clock of constant gap `g > 0` nanoseconds from
start time `t0 ≥ 0`, the `global_rate` logged at beat `N ≥ 2` (the
record the `N`-th call stores at the current write cursor) equals
`(counter+1) / (now - first_timestamp) * 1e9 = N / ((N-1)·g) * 1e9`,
i.e. `N / ((N-1)·g)` beats per second with the gap measured in
seconds. -/
theorem C6_global_rate_synthetic_clock (W B : Nat) (N : Nat) (hN : 2 ≤ N)
    (t0 g : Int) (ht0 : 0 ≤ t0) (hg : 1 ≤ g) (tag : Int) (a r : ℚ)
    (w0 : List Int) (a0 p0 : List ℚ) (log0 : Nat → LogRecord) :
    ((hb_run (hb_init W B true w0 a0 p0 log0)
        (constGapInputs N t0 g tag a r)).log
      ((hb_run (hb_init W B true w0 a0 p0 log0)
        (constGapInputs (N - 1) t0 g tag a r)).buffer_index)).global_rate
    = (N : ℚ) / (((N : ℚ) - 1) * (g : ℚ)) * 1000000000 := by
  have hsplit := constGapInputs_concat N (by omega) t0 g tag a r
  rw [hsplit, hb_run_concat]
  have hlpre : 1 ≤ (constGapInputs (N - 1) t0 g tag a r).length := by
    rw [constGapInputs_length]; omega
  obtain ⟨ic, ift, _, _, _, _, _⟩ :=
    run_base W B true w0 a0 p0 log0 (constGapInputs (N - 1) t0 g tag a r)
      (constGapInputs_time_pos (N - 1) t0 g ht0 (by omega) tag a r) hlpre
  rw [constGapInputs_length] at ic
  rw [constGapInputs_getD (N - 1) t0 g tag a r 0 (by omega)] at ift
  have hft : (hb_run (hb_init W B true w0 a0 p0 log0)
      (constGapInputs (N - 1) t0 g tag a r)).first_timestamp = t0 := by
    rw [ift]; simp
  have hstep : ¬ (hb_run (hb_init W B true w0 a0 p0 log0)
      (constGapInputs (N - 1) t0 g tag a r)).first_timestamp = -1 := by
    rw [hft]; omega
  rw [acc_else_log_rec _ hstep]
  show (((hb_run (hb_init W B true w0 a0 p0 log0)
      (constGapInputs (N - 1) t0 g tag a r)).counter : ℚ) + 1) /
      (((t0 + ((N : Int) - 1) * g -
        (hb_run (hb_init W B true w0 a0 p0 log0)
          (constGapInputs (N - 1) t0 g tag a r)).first_timestamp : Int)) : ℚ)
      * 1000000000 = _
  rw [ic, hft]
  have h1 : t0 + ((N : Int) - 1) * g - t0 = ((N : Int) - 1) * g := by ring
  rw [h1]
  have h2 : (((N - 1 : Nat) : Int) : ℚ) + 1 = (N : ℚ) := by
    push_cast [Nat.cast_sub (show 1 ≤ N by omega)]
    ring
  rw [h2]
  have h3 : ((((N : Int) - 1) * g : Int) : ℚ) = ((N : ℚ) - 1) * (g : ℚ) := by
    push_cast
    ring
  rw [h3]

/-- Witness for C6 at `N = 3`, `g = 5`, `t0 = 0`. -/
theorem C6_global_rate_synthetic_clock_witness :
    2 ≤ 3 ∧
    ((hb_run (hb_init 1 2 true [0] [0] [0] (fun _ => dRec))
        (constGapInputs 3 0 5 0 1 0)).log
      ((hb_run (hb_init 1 2 true [0] [0] [0] (fun _ => dRec))
        (constGapInputs (3 - 1) 0 5 0 1 0)).buffer_index)).global_rate
    = (3 : ℚ) / (((3 : ℚ) - 1) * (5 : ℚ)) * 1000000000 :=
  ⟨by decide,
    C6_global_rate_synthetic_clock 1 2 3 (by decide) 0 5 (by decide)
      (by decide) 0 1 0 [0] [0] [0] (fun _ => dRec)⟩

/-- C10: the first heartbeat seeds window slot 0 (zero time delta, the
beat's accuracy, zero energy) without advancing `current_index`; the
second heartbeat's helper call therefore overwrites slot 0 with the
second beat's deltas; and every window accuracy average reported after
beat 1 is a brute-force average over the accuracies of beats `2..N`
only — the first beat's accuracy never contributes to it. -/
theorem C10_first_seed_overwritten (W B : Nat) (hW : 1 ≤ W) (tf : Bool)
    (w0 : List Int) (a0 p0 : List ℚ) (log0 : Nat → LogRecord)
    (hlw : w0.length = W) (hla : a0.length = W) (hlp : p0.length = W) :
    (∀ (tag : Int) (a : ℚ) (t : Int) (r : ℚ),
      (heartbeat_acc (hb_init W B tf w0 a0 p0 log0) tag a t
          r).1.current_index = 0 ∧
      (heartbeat_acc (hb_init W B tf w0 a0 p0 log0) tag a t
          r).1.accuracy_window.getD 0 0 = a) ∧
    (∀ i1 i2 : HBInput, 0 ≤ i1.time → 0 ≤ i2.time →
      (hb_run (hb_init W B tf w0 a0 p0 log0) [i1, i2]).window.getD 0 0
        = i2.time - i1.time ∧
      (hb_run (hb_init W B tf w0 a0 p0 log0)
          [i1, i2]).accuracy_window.getD 0 0 = i2.accuracy ∧
      (hb_run (hb_init W B tf w0 a0 p0 log0)
          [i1, i2]).power_window.getD 0 0
        = i2.reading / 1000000 - i1.reading / 1000000) ∧
    (∀ inputs : List HBInput, (∀ inp ∈ inputs, 0 ≤ inp.time) →
      2 ≤ inputs.length →
      (hb_run (hb_init W B tf w0 a0 p0 log0) inputs).last_average_accuracy =
        (∑ j ∈ Finset.Ico
            (inputs.length - 1 - min (inputs.length - 1) W)
            (inputs.length - 1),
          (inputs.getD (j + 1) dInput).accuracy)
          / ((min (inputs.length - 1) W : Nat) : ℚ)) := by
  refine ⟨?_, ?_, ?_⟩
  · intro tag a t r
    rw [heartbeat_acc_first _ rfl]
    exact ⟨rfl,
      getD_set_self _ _ _ _ (by simp only [hb_init]; rw [hla]; omega)⟩
  · intro i1 i2 h1 h2
    obtain ⟨_, _, _, _, _, _, hpt, _⟩ :=
      run_winInv W B hW tf w0 a0 p0 log0 hlw hla hlp [i1, i2]
        (by intro inp hinp
            simp only [List.mem_cons, List.not_mem_nil, or_false] at hinp
            rcases hinp with rfl | rfl
            · exact h1
            · exact h2)
        (by simp)
    have hlen1 : (hbDeltas [i1, i2]).length = 1 := by
      rw [hbDeltas_length]; rfl
    obtain ⟨hw, ha, hp⟩ := hpt 0 (by omega) (by rw [hlen1]; omega)
    have hpos0 : posOf (hbDeltas [i1, i2]).length W 0 = 0 := by
      rw [hlen1]
      exact posOf_small 1 W 0 hW (by omega)
    rw [hpos0] at hw ha hp
    have hget : (hbDeltas [i1, i2]).getD 0 dSample =
        { time := i2.time - i1.time, accuracy := i2.accuracy
          energy := i2.reading / 1000000 - i1.reading / 1000000 } := by
      rw [hbDeltas_getD [i1, i2] 0 (by simp)]
      rfl
    rw [hget] at hw ha hp
    exact ⟨hw, ha, hp⟩
  · intro inputs hpos h2
    obtain ⟨_, _, _, _, _, _, _, hsum⟩ :=
      run_winInv W B hW tf w0 a0 p0 log0 hlw hla hlp inputs hpos
        (by omega)
    obtain ⟨_, hacc⟩ := hsum (by rw [hbDeltas_length]; omega)
    rw [hacc, hbDeltas_length]
    congr 1
    refine Finset.sum_congr rfl (fun j hj => ?_)
    have hjlt : j < inputs.length - 1 := (Finset.mem_Ico.mp hj).2
    rw [hbDeltas_getD inputs j hjlt]

/-- Witness for C10: two concrete beats overwrite the seeded slot. -/
theorem C10_first_seed_overwritten_witness :
    (0 : Int) ≤ 4 ∧
    ((hb_run (hb_init 1 2 true [0] [0] [0] (fun _ => dRec))
        [⟨0, 1, 4, 0⟩, ⟨0, (1 / 2 : ℚ), 9, 3⟩]).window.getD 0 0 = 9 - 4 ∧
    (hb_run (hb_init 1 2 true [0] [0] [0] (fun _ => dRec))
        [⟨0, 1, 4, 0⟩, ⟨0, (1 / 2 : ℚ), 9, 3⟩]).accuracy_window.getD 0 0
      = (1 / 2 : ℚ) ∧
    (hb_run (hb_init 1 2 true [0] [0] [0] (fun _ => dRec))
        [⟨0, 1, 4, 0⟩, ⟨0, (1 / 2 : ℚ), 9, 3⟩]).power_window.getD 0 0
      = (3 : ℚ) / 1000000 - (0 : ℚ) / 1000000) :=
  ⟨by decide,
    (C10_first_seed_overwritten 1 2 (by decide) true [0] [0] [0]
      (fun _ => dRec) (by decide) (by decide) (by decide)).2.1
      ⟨0, 1, 4, 0⟩ ⟨0, (1 / 2 : ℚ), 9, 3⟩ (by decide) (by decide)⟩
